import Mathlib

set_option maxHeartbeats 1000000
set_option maxRecDepth 100000

/-!
Verification of the deterministic governance-ledger kernel (`src/ck0`,
`src/nk1`) against its natural-language specification.

The Python sources are shallowly embedded: `DebtUnit` values become `ℕ`
(the constructor rejects negative ints), `fractions.Fraction` becomes
Mathlib's normalized `ℚ` (Python `Fraction` is kept normalized with a
positive denominator, exactly like `Rat`), Python `//` and `%` on a
positive divisor become `Int.ediv` / `Int.emod` (floor semantics agree
when the divisor is positive), and `int(...)` truncation toward zero
becomes `Int.div`.  Cryptographic digests (`hashlib.sha3_256`,
`hashlib.sha256`) are abstracted as an explicit function argument `H`;
every theorem is stated for an arbitrary `H`, which only makes the
statements stronger.
-/

namespace CK0

/-! ## DebtUnit (src/ck0/debtunit.py)

A `DebtUnit` wraps a non-negative integer, so it is embedded as `ℕ`.
`DebtUnit.from_fraction` converts a rational to a `DebtUnit` via
half-even rounding of `frac * scale`, then clamps with `max(0, rounded)`.
-/

/-- The `rounded` value after the half-even adjustment inside
`DebtUnit.from_fraction`, before the `max(0, _)` clamp.
Python: `rounded = scaled.numerator // scaled.denominator`,
`remainder = scaled.numerator % scaled.denominator`, then the
half-even adjustment. -/
def roundHalfEven (frac : ℚ) (scale : ℤ) : ℤ :=
  let scaled : ℚ := frac * (scale : ℚ)
  let rounded : ℤ := scaled.num / (scaled.den : ℤ)
  let remainder : ℤ := scaled.num % (scaled.den : ℤ)
  if remainder * 2 = (scaled.den : ℤ) then
    if rounded % 2 = 0 then rounded else rounded + 1
  else if remainder * 2 > (scaled.den : ℤ) then rounded + 1
  else rounded

/-- `DebtUnit.from_fraction(frac, scale)`: half-even rounding of
`frac * scale`, clamped by `max(0, rounded)` before the `DebtUnit`
constructor. -/
def from_fraction (frac : ℚ) (scale : ℤ) : ℕ :=
  (max 0 (roundHalfEven frac scale)).toNat

end CK0

namespace CK0.BudgetLaw

/-! ## Budget law (src/ck0/budget_law.py) -/

/-- Python `int(q)` on a `Fraction`: truncation toward zero.
`Fraction` keeps a positive denominator, as does `Rat`. -/
def pyInt (q : ℚ) : ℤ := Int.tdiv q.num (q.den : ℤ)

/-- `linear_capped_service(debt, budget, mu) = min(debt.value, int(mu * budget.value))`
computed in ℤ (the result is fed to the `DebtUnit` constructor, which
requires it to be non-negative). -/
def linear_capped_serviceZ (mu : ℚ) (debt budget : ℕ) : ℤ :=
  min (debt : ℤ) (pyInt (mu * (budget : ℚ)))

/-- The service function of the predefined `LINEAR_CAPPED_MU_1` law. -/
def linearCapped1 (debt budget : ℕ) : ℕ :=
  (linear_capped_serviceZ 1 debt budget).toNat

/-- `DisturbancePolicyID` enum; `.value` strings are "DP0".."DP3". -/
inductive DisturbancePolicyID
  | DP0_ZERO
  | DP1_UNIFORM_BOUNDED
  | DP2_EVENT_TYPED
  | DP3_MODEL_BASED
deriving DecidableEq

def DisturbancePolicyID.value : DisturbancePolicyID → String
  | .DP0_ZERO => "DP0"
  | .DP1_UNIFORM_BOUNDED => "DP1"
  | .DP2_EVENT_TYPED => "DP2"
  | .DP3_MODEL_BASED => "DP3"

/-- `DisturbancePolicy` dataclass (the `event_bounds` field is never
consulted by `validate_e`, which returns `True` for DP2 without it). -/
structure DisturbancePolicy where
  policy_id : DisturbancePolicyID
  e_bar : Option ℕ := none
deriving DecidableEq

/-- `DisturbancePolicy.validate_e`.  `self.e_bar or DebtUnit(0)` is
`e_bar` when present and non-zero, else `DebtUnit(0)`; a present
`DebtUnit(0)` is falsy in Python but `or` then yields `DebtUnit(0)`
again, so `Option.getD 0` is exact. -/
def validate_e (p : DisturbancePolicy) (e_k : ℕ) : Bool :=
  match p.policy_id with
  | .DP0_ZERO => e_k == 0
  | .DP1_UNIFORM_BOUNDED => e_k ≤ p.e_bar.getD 0
  | .DP2_EVENT_TYPED => true
  | .DP3_MODEL_BASED => true

/-- `ServicePolicyID` enum `.value` strings used in receipts. -/
def LINEAR_CAPPED_ID : String := "CK0.service.v1.linear_capped"

/-- `ServiceLaw` dataclass: a policy id, an instance id and the
service function `S : DebtUnit × DebtUnit → DebtUnit`. -/
structure ServiceLaw where
  policy_id : String
  instance_id : String
  service_fn : ℕ → ℕ → ℕ

/-- The predefined `LINEAR_CAPPED_MU_1` service law. -/
def LINEAR_CAPPED_MU_1 : ServiceLaw :=
  { policy_id := LINEAR_CAPPED_ID
    instance_id := "linear_capped.mu:1"
    service_fn := linearCapped1 }

/-- `BudgetLawResult` dataclass (the redundant `details` dict, which
repeats the other fields, is omitted). -/
structure BudgetLawResult where
  debt_next : ℕ
  service : ℕ
  disturbance : ℕ
  law_satisfied : Bool
deriving DecidableEq

/-- `compute_budget_law(debt, budget, disturbance, service_law,
disturbance_policy)`. -/
def compute_budget_law (debt budget disturbance : ℕ)
    (service_law : ServiceLaw) (disturbance_policy : Option DisturbancePolicy) :
    BudgetLawResult :=
  let service := service_law.service_fn debt budget
  let debt_after_service := if debt ≥ service then debt - service else 0
  let debt_next := debt_after_service + disturbance
  let law_satisfied :=
    match disturbance_policy with
    | none => true
    | some p => validate_e p disturbance
  { debt_next := debt_next
    service := service
    disturbance := disturbance
    law_satisfied := law_satisfied }

/-- The DP0 (always-zero disturbance) policy constant `ZERO_DISTURBANCE`. -/
def ZERO_DISTURBANCE : DisturbancePolicy := { policy_id := .DP0_ZERO }

end CK0.BudgetLaw

namespace PyStr

/-! ## Python string primitives

Decimal rendering (`str(int)`), decimal parsing (`int(str)` restricted
to an optional sign followed by digits — the only shapes the
canonicalizers ever feed it; Python's `int()` also tolerates
whitespace/underscores, which never occur in canonical tokens), and the
JSON string escaping performed by `json.dumps` with its default
`ensure_ascii=True`. -/

/-- Decimal digit character: `chr(48 + d)`. -/
def digitChar (d : ℕ) : Char := Char.ofNat (48 + d)

/-- Digit characters of `n`, most significant first, by repeated
division; structural fuel (`n` itself suffices) keeps it
kernel-reducible. -/
def natDecAux : ℕ → ℕ → List Char
  | 0, _ => []
  | fuel + 1, n =>
    if n = 0 then [] else natDecAux fuel (n / 10) ++ [digitChar (n % 10)]

/-- `str(n)` for a non-negative integer. -/
def natDecimal (n : ℕ) : String :=
  if n = 0 then "0" else ⟨natDecAux n n⟩

/-- `str(i)` for a Python int: "-" prefix for negatives. -/
def intDecimal (i : ℤ) : String :=
  if i < 0 then "-" ++ natDecimal (-i).toNat else natDecimal i.toNat

/-- `'0' ≤ c ≤ '9'`. -/
def isDigitChar (c : Char) : Bool := 48 ≤ c.toNat && c.toNat ≤ 57

/-- Numeric value of a digit character. -/
def digitVal (c : Char) : ℕ := c.toNat - 48

/-- Parse a non-empty all-digit character list (most significant
first). -/
def parseNatDigits (l : List Char) : Option ℕ :=
  if l ≠ [] ∧ l.all isDigitChar then
    some (l.foldl (fun a c => a * 10 + digitVal c) 0)
  else none

/-- `int(s)` on an optional-sign decimal character list (an empty
string raises). -/
def parsePyIntChars : List Char → Option ℤ
  | c :: rest =>
    if c = '-' then (parseNatDigits rest).map (fun n : ℕ => -(n : ℤ))
    else (parseNatDigits (c :: rest)).map (fun n : ℕ => (n : ℤ))
  | [] => none

/-- `int(s)` on an optional-sign decimal string. -/
def parsePyInt (s : String) : Option ℤ := parsePyIntChars s.data

/-- Lower-case hexadecimal digit character. -/
def hexDigitChar (d : ℕ) : Char :=
  if d < 10 then Char.ofNat (48 + d) else Char.ofNat (87 + d)

/-- The `\uXXXX` escape for a code unit. -/
def uEscape (n : ℕ) : List Char :=
  ['\\', 'u', hexDigitChar (n / 4096 % 16), hexDigitChar (n / 256 % 16),
   hexDigitChar (n / 16 % 16), hexDigitChar (n % 16)]

/-- Per-character escape of `json.dumps` (default `ensure_ascii=True`):
printable ASCII passes through, `"` `\` and the short control escapes
are backslashed, everything else becomes `\uXXXX` (surrogate pairs
above U+FFFF). -/
def jsonEscapeChar (c : Char) : List Char :=
  if c = '"' then ['\\', '"']
  else if c = '\\' then ['\\', '\\']
  else if c.toNat = 10 then ['\\', 'n']
  else if c.toNat = 13 then ['\\', 'r']
  else if c.toNat = 9 then ['\\', 't']
  else if c.toNat = 8 then ['\\', 'b']
  else if c.toNat = 12 then ['\\', 'f']
  else if c.toNat < 32 then uEscape c.toNat
  else if c.toNat ≤ 126 then [c]
  else if c.toNat ≤ 65535 then uEscape c.toNat
  else uEscape (55296 + (c.toNat - 65536) / 1024) ++
       uEscape (56320 + (c.toNat - 65536) % 1024)

/-- Escape the characters of a string. -/
def jsonEscape (s : String) : String := ⟨s.data.foldr (fun c acc => jsonEscapeChar c ++ acc) []⟩

/-- A JSON string literal: quote, escape, quote. -/
def jsonStr (s : String) : String := "\"" ++ jsonEscape s ++ "\""

/-- JSON rendering of a Python bool. -/
def jsonBool (b : Bool) : String := if b then "true" else "false"

end PyStr

namespace CK0.Receipts

open PyStr

/-! ## Receipts (src/ck0/receipts.py)

`StepReceipt.canonical_json` is `json.dumps(asdict(self),
separators=(',', ':'), sort_keys=True).encode('utf-8')`: a compact JSON
object whose keys appear in sorted order.  The embedding spells that
serialization out key by key, in the sorted key order
`E_k, contracts, debt_after, debt_before, disturbance_policy_id,
invariant_status, law_satisfied, prev_receipt_hash, receipt_hash,
service_instance_id, service_policy_id, service_provided,
state_hash_after, state_hash_before, step_index, timestamp,
transition_id, transition_success, version`.

`compute_hash` is `'h:' + sha3_256(canonical_json).hexdigest()`; the
whole digest step is abstracted as a function `H : String → String`
passed explicitly. The `timestamp` dataclass field defaults to
`datetime.utcnow().isoformat() + 'Z'` — the ambient wall-clock time at
construction — and is modelled as an explicit argument. -/

/-- `PerContractReceiptData` dataclass.  The debt values `m_k`, `r2_k`
are Python ints. -/
structure PerContractReceiptData where
  contract_id : String
  active : Bool
  m_k : ℤ
  sigma_spec_id : String
  weight_spec_id : String
  r2_k : ℤ
  r_hash_k : Option String := none
deriving DecidableEq

/-- Compact sorted-key JSON object for one `PerContractReceiptData`
(keys sorted: `active, contract_id, m_k, r2_k, r_hash_k,
sigma_spec_id, weight_spec_id`). -/
def contractJson (c : PerContractReceiptData) : String :=
  "\x7b\"active\":" ++ jsonBool c.active ++
  ",\"contract_id\":" ++ jsonStr c.contract_id ++
  ",\"m_k\":" ++ intDecimal c.m_k ++
  ",\"r2_k\":" ++ intDecimal c.r2_k ++
  ",\"r_hash_k\":" ++ (match c.r_hash_k with
    | none => "null"
    | some s => jsonStr s) ++
  ",\"sigma_spec_id\":" ++ jsonStr c.sigma_spec_id ++
  ",\"weight_spec_id\":" ++ jsonStr c.weight_spec_id ++ "\x7d"

/-- `StepReceipt` dataclass.  The four debt/service/disturbance values
are stored from `DebtUnit.value` and hence non-negative. -/
structure StepReceipt where
  step_index : ℤ
  receipt_hash : String
  prev_receipt_hash : String
  state_hash_before : String
  state_hash_after : String
  debt_before : ℕ
  debt_after : ℕ
  service_policy_id : String
  service_instance_id : String
  service_provided : ℕ
  disturbance_policy_id : String
  E_k : ℕ
  transition_id : String
  transition_success : Bool
  invariant_status : Bool
  law_satisfied : Bool
  contracts : List PerContractReceiptData := []
  timestamp : String
  version : String := "receipt_v1"
deriving DecidableEq

/-- The serialized keys strictly before `receipt_hash` (everything in
canonical JSON up to and including `"receipt_hash":`). -/
def canonicalJsonPre (r : StepReceipt) : String :=
  "\x7b\"E_k\":" ++ natDecimal r.E_k ++
  ",\"contracts\":[" ++ String.intercalate "," (r.contracts.map contractJson) ++ "]" ++
  ",\"debt_after\":" ++ natDecimal r.debt_after ++
  ",\"debt_before\":" ++ natDecimal r.debt_before ++
  ",\"disturbance_policy_id\":" ++ jsonStr r.disturbance_policy_id ++
  ",\"invariant_status\":" ++ jsonBool r.invariant_status ++
  ",\"law_satisfied\":" ++ jsonBool r.law_satisfied ++
  ",\"prev_receipt_hash\":" ++ jsonStr r.prev_receipt_hash ++
  ",\"receipt_hash\":"

/-- The serialized keys strictly after `receipt_hash`. -/
def canonicalJsonPost (r : StepReceipt) : String :=
  ",\"service_instance_id\":" ++ jsonStr r.service_instance_id ++
  ",\"service_policy_id\":" ++ jsonStr r.service_policy_id ++
  ",\"service_provided\":" ++ natDecimal r.service_provided ++
  ",\"state_hash_after\":" ++ jsonStr r.state_hash_after ++
  ",\"state_hash_before\":" ++ jsonStr r.state_hash_before ++
  ",\"step_index\":" ++ intDecimal r.step_index ++
  ",\"timestamp\":" ++ jsonStr r.timestamp ++
  ",\"transition_id\":" ++ jsonStr r.transition_id ++
  ",\"transition_success\":" ++ jsonBool r.transition_success ++
  ",\"version\":" ++ jsonStr r.version ++ "\x7d"

/-- `StepReceipt.canonical_json`: the full sorted-key compact JSON
object. -/
def canonicalJson (r : StepReceipt) : String :=
  canonicalJsonPre r ++ jsonStr r.receipt_hash ++ canonicalJsonPost r

/-- `StepReceipt.compute_hash` with the `'h:' + sha3_256(_).hexdigest()`
digest abstracted as `H`. -/
def compute_hash (H : String → String) (r : StepReceipt) : String :=
  H (canonicalJson r)

/-- The argument tuple of `create_step_receipt` (the two `State`
arguments enter the receipt only through their `state_hash()` strings,
which are taken directly). -/
structure CreateArgs where
  step_index : ℤ
  prev_hash : String
  state_hash_before : String
  state_hash_after : String
  debt_before : ℕ
  debt_after : ℕ
  service_law_id : String
  service_law_instance : String
  service_provided : ℕ
  disturbance_policy_id : String
  disturbance : ℕ
  transition_id : String
  transition_success : Bool
  invariant_status : Bool
  law_satisfied : Bool
  contracts : List PerContractReceiptData := []
deriving DecidableEq

/-- The receipt as first constructed inside `create_step_receipt`, with
`receipt_hash=""` ("Will be computed") and the ambient construction
time `t` in the `timestamp` field. -/
def rawReceipt (a : CreateArgs) (t : String) : StepReceipt :=
  { step_index := a.step_index
    receipt_hash := ""
    prev_receipt_hash := a.prev_hash
    state_hash_before := a.state_hash_before
    state_hash_after := a.state_hash_after
    debt_before := a.debt_before
    debt_after := a.debt_after
    service_policy_id := a.service_law_id
    service_instance_id := a.service_law_instance
    service_provided := a.service_provided
    disturbance_policy_id := a.disturbance_policy_id
    E_k := a.disturbance
    transition_id := a.transition_id
    transition_success := a.transition_success
    invariant_status := a.invariant_status
    law_satisfied := a.law_satisfied
    contracts := a.contracts
    timestamp := t }

/-- `create_step_receipt`: build the receipt with `receipt_hash=""`,
then overwrite `receipt_hash` with `compute_hash` of that raw
receipt. -/
def create_step_receipt (H : String → String) (a : CreateArgs) (t : String) :
    StepReceipt :=
  { rawReceipt a t with receipt_hash := compute_hash H (rawReceipt a t) }

/-- `ReceiptChain` (the commit-receipt half, which C2 does not touch,
is omitted). -/
structure ReceiptChain where
  step_receipts : List StepReceipt := []
  last_step_hash : Option String := none

/-- The freshly constructed empty chain. -/
def emptyChain : ReceiptChain := {}

/-- `ReceiptChain.add_step_receipt`: recompute the hash and reject on
mismatch, then check predecessor linkage, then append. Raised
`ValueError`s become `Except.error`. -/
def add_step_receipt (H : String → String) (c : ReceiptChain)
    (r : StepReceipt) : Except String ReceiptChain :=
  let computed_hash := compute_hash H r
  if computed_hash ≠ r.receipt_hash then
    .error ("Receipt hash mismatch: expected " ++ r.receipt_hash ++
      ", got " ++ computed_hash)
  else
    match c.last_step_hash with
    | some h =>
      if r.prev_receipt_hash ≠ h then
        .error ("Chain broken: expected prev " ++ h ++ ", got " ++
          r.prev_receipt_hash)
      else
        .ok { step_receipts := c.step_receipts ++ [r]
              last_step_hash := some r.receipt_hash }
    | none =>
      .ok { step_receipts := c.step_receipts ++ [r]
            last_step_hash := some r.receipt_hash }

end CK0.Receipts

namespace CK0.Verifier

open PyStr CK0.BudgetLaw CK0.Receipts

/-! ## Replay verifier (src/ck0/verifier.py), step-receipt path -/

/-- `VerificationResult` enum. -/
inductive VerificationResult
  | PASS
  | FAIL_STATE_HASH
  | FAIL_RECEIPT_HASH
  | FAIL_CHAIN
  | FAIL_INVARIANT
  | FAIL_LAW
  | FAIL_SERVICE
  | FAIL_DISTURBANCE
  | FAIL_TRANSITION
deriving DecidableEq

/-- `VerificationError` (the `details` dict of ad-hoc context values is
omitted). -/
structure VerificationError where
  code : VerificationResult
  message : String
deriving DecidableEq

/-- `ReceiptVerificationResult` (again without the `details` dict). -/
structure ReceiptVerificationResult where
  passed : Bool
  errors : List VerificationError
deriving DecidableEq

/-- `ReplayVerifier._verify_step_receipt`.  The verifier's configured
`service_law.policy_id` is an enum whose `.value` string is compared
against the receipt; the embedding stores that string directly in
`ServiceLaw.policy_id`.  Checks, in order: (1) recomputed receipt hash,
(2) predecessor linkage, (5) `compute_budget_law` on
`(debt_before, service_provided, E_k)` — the code passes
`service_provided` where a budget is needed ("This is service, not
budget - need to track") and only consults `law_satisfied`,
(6) service-policy id, (7) disturbance-policy id, then
`validate_e(E_k)`.  `passed` is `errors == []`. -/
def verify_step_receipt (H : String → String)
    (service_law : ServiceLaw) (disturbance_policy : DisturbancePolicy)
    (receipt : StepReceipt) (prev_receipt : Option StepReceipt) :
    ReceiptVerificationResult :=
  let errors : List VerificationError :=
    (if compute_hash H receipt ≠ receipt.receipt_hash then
      [{ code := .FAIL_RECEIPT_HASH
         message := "Receipt hash mismatch at step " ++
           intDecimal receipt.step_index }]
     else []) ++
    (match prev_receipt with
     | none => []
     | some p =>
       if receipt.prev_receipt_hash ≠ p.receipt_hash then
         [{ code := .FAIL_CHAIN
            message := "Chain broken at step " ++
              intDecimal receipt.step_index }]
       else []) ++
    (let law_result := compute_budget_law receipt.debt_before
        receipt.service_provided receipt.E_k service_law
        (some disturbance_policy)
     if ¬ law_result.law_satisfied then
       [{ code := .FAIL_LAW
          message := "Budget law violated at step " ++
            intDecimal receipt.step_index }]
     else []) ++
    (if receipt.service_policy_id ≠ service_law.policy_id then
      [{ code := .FAIL_SERVICE
         message := "Service policy mismatch at step " ++
           intDecimal receipt.step_index }]
     else []) ++
    (if receipt.disturbance_policy_id ≠ disturbance_policy.policy_id.value then
      [{ code := .FAIL_DISTURBANCE
         message := "Disturbance policy mismatch at step " ++
           intDecimal receipt.step_index }]
     else []) ++
    (if ¬ validate_e disturbance_policy receipt.E_k then
      [{ code := .FAIL_DISTURBANCE
         message := "Disturbance out of bounds at step " ++
           intDecimal receipt.step_index }]
     else [])
  { passed := errors.isEmpty
    errors := errors }

/-- A concrete receipt whose recorded `debt_after` (999) disagrees with
the budget law recomputation (`max(0, 100 - min(100, 50)) + 0 = 50`)
while every policy field matches the verifier configuration. -/
def mismatchedReceipt : StepReceipt :=
  { step_index := 0
    receipt_hash := ""
    prev_receipt_hash := ""
    state_hash_before := "h:aa"
    state_hash_after := "h:bb"
    debt_before := 100
    debt_after := 999
    service_policy_id := LINEAR_CAPPED_ID
    service_instance_id := "linear_capped.mu:1"
    service_provided := 50
    disturbance_policy_id := "DP0"
    E_k := 0
    transition_id := "t0"
    transition_success := true
    invariant_status := true
    law_satisfied := true
    timestamp := "2024-01-01T00:00:00Z" }

end CK0.Verifier

namespace CK0.Transition

/-! ## Transition contract (src/ck0/transition.py)

`State._field_values` is a Python dict from field id to a typed value;
the transition logic treats the values opaquely, so the value type is a
parameter `V`.  Kernel functions take `(state, args)`; the `args` dict
is likewise opaque (`A`).  A raised exception inside a kernel or a
sub-operation is an `Except.error`; `TransitionContract.apply` wraps
everything in `try/except` and therefore always returns a
`TransitionResult`.  (`State.field_blocks`, which the transition path
never reads, is omitted; Python's `get_field` returns `None` exactly
for a missing key, since typed field values are never `None`.) -/

/-- `State`: the `_field_values` insertion-ordered dict as an
association list with unique keys. -/
structure State (V : Type) where
  field_values : List (String × V)
deriving DecidableEq

/-- `State.get_field`: `self._field_values.get(field_id)`. -/
def State.get_field (s : State V) (field_id : String) : Option V :=
  s.field_values.lookup field_id

/-- Overwrite the value of an existing key, preserving dict order. -/
def setValue (l : List (String × V)) (k : String) (v : V) : List (String × V) :=
  l.map (fun kv => if kv.1 == k then (kv.1, v) else kv)

/-- The update loop of `State.with_fields`: raise `KeyError` on an
unknown field id, otherwise overwrite. -/
def withFieldsAux (l : List (String × V)) :
    List (String × V) → Except String (List (String × V))
  | [] => .ok l
  | (k, v) :: rest =>
    if (l.lookup k).isSome then withFieldsAux (setValue l k v) rest
    else .error ("Unknown field: " ++ k)

/-- `State.with_fields`: copy, update each pair, never mutate the
receiver. -/
def State.with_fields (s : State V) (updates : List (String × V)) :
    Except String (State V) :=
  (withFieldsAux s.field_values updates).map State.mk

/-- `TransitionDescriptor`: `transition_id` plus the
`transition_type`/`parameters` content actually read by `apply`
(`kernel_id`+`args` for KERNEL_CALL — `kernel_id` may be absent from
the dict — `updates` for FIELD_UPDATE, `steps` for COMPOSITE). -/
inductive TransitionDescriptor (V A : Type) where
  | kernel_call (transition_id : String) (kernel_id : Option String) (args : A)
  | field_update (transition_id : String) (updates : List (String × V))
  | composite (transition_id : String) (steps : List (TransitionDescriptor V A))

/-- `TransitionResult` dataclass. -/
structure TransitionResult (V A : Type) where
  new_state : State V
  transition_descriptor : TransitionDescriptor V A
  success : Bool
  error_message : Option String := none

/-- The `_kernels` registry: kernel id → pure fallible kernel
function. -/
def Kernels (V A : Type) := List (String × (State V → A → Except String (State V)))

/-- `_apply_kernel`: missing `kernel_id`, unknown kernel, or the kernel
body itself may raise. -/
def applyKernel (ks : Kernels V A) (state : State V)
    (kernel_id : Option String) (args : A) : Except String (State V) :=
  match kernel_id with
  | none => .error "kernel_id required for kernel call"
  | some k =>
    match ks.lookup k with
    | none => .error ("Unknown kernel: " ++ k)
    | some fn => fn state args

/-- The field-existence validation loop of `_apply_field_update`. -/
def checkFields (s : State V) : List (String × V) → Except String Unit
  | [] => .ok ()
  | (k, _) :: rest =>
    if (s.get_field k).isSome then checkFields s rest
    else .error ("Unknown field: " ++ k)

/-- `_apply_field_update`: reject empty updates, validate every field
exists, then `with_fields`. -/
def applyFieldUpdate (state : State V) (updates : List (String × V)) :
    Except String (State V) :=
  if updates.isEmpty then .error "updates required for field update"
  else
    match checkFields state updates with
    | .error e => .error e
    | .ok _ => state.with_fields updates

mutual

/-- `TransitionContract.apply`: dispatch on the transition type inside
`try/except`; any raised error yields `success=False` with
`new_state = state` (the original input). -/
def apply (ks : Kernels V A) (state : State V)
    (d : TransitionDescriptor V A) : TransitionResult V A :=
  match d with
  | .kernel_call _ kid args =>
    match applyKernel ks state kid args with
    | .ok ns => ⟨ns, d, true, none⟩
    | .error e => ⟨state, d, false, some e⟩
  | .field_update _ updates =>
    match applyFieldUpdate state updates with
    | .ok ns => ⟨ns, d, true, none⟩
    | .error e => ⟨state, d, false, some e⟩
  | .composite _ steps =>
    match
      (if steps.isEmpty then .error "steps required for composite transition"
       else compositeLoop ks state steps : Except String (State V)) with
    | .ok ns => ⟨ns, d, true, none⟩
    | .error e => ⟨state, d, false, some e⟩

/-- The loop of `_apply_composite`: apply each sub-descriptor in order,
re-raising `"Composite step failed: ..."` at the first failure (a
`None` message prints as `"None"`). -/
def compositeLoop (ks : Kernels V A) (state : State V) :
    List (TransitionDescriptor V A) → Except String (State V)
  | [] => .ok state
  | d :: rest =>
    let result := apply ks state d
    if result.success then compositeLoop ks result.new_state rest
    else .error ("Composite step failed: " ++ result.error_message.getD "None")

end

end CK0.Transition

namespace NK1.Merkle

open PyStr

/-! ## Merkle aggregation (src/nk1/receipt_canon.py, class MerkleTree)

Hashes travel as `h:<hex>` strings; `decode_hash` strips the prefix and
`binascii.unhexlify`s (raising on a missing prefix, an odd-length or a
non-hex string — modelled as `Option`), `encode_hash` renders lowercase
hex.  Bytes are `List ℕ` with values < 256; `hashlib.sha256` is
abstracted as `H : List ℕ → List ℕ`.  The `while len(nodes) > 1` loops
of `compute_root`/`compute_proof` halve the node list each pass
(`levelUp`), so running them `nodes.length` times is exact; the fuelled
recursions below are kernel-reducible. -/

/-- Value of one hex digit (`unhexlify` accepts both cases). -/
def hexDigitVal (c : Char) : Option ℕ :=
  if 48 ≤ c.toNat ∧ c.toNat ≤ 57 then some (c.toNat - 48)
  else if 97 ≤ c.toNat ∧ c.toNat ≤ 102 then some (c.toNat - 87)
  else if 65 ≤ c.toNat ∧ c.toNat ≤ 70 then some (c.toNat - 55)
  else none

/-- `binascii.unhexlify`: pairs of hex digits, failing on odd length or
a non-hex character. -/
def hexDecodeList : List Char → Option (List ℕ)
  | [] => some []
  | c1 :: c2 :: rest => do
    let hi ← hexDigitVal c1
    let lo ← hexDigitVal c2
    let tail ← hexDecodeList rest
    pure ((16 * hi + lo) :: tail)
  | [_] => none

/-- `MerkleTree.decode_hash`: require the `h:` prefix, unhexlify the
rest. -/
def decode_hash (s : String) : Option (List ℕ) :=
  match s.data with
  | 'h' :: ':' :: rest => hexDecodeList rest
  | _ => none

/-- Two lowercase hex digits of one byte (`binascii.hexlify`). -/
def hexEncodeByte (b : ℕ) : List Char :=
  [hexDigitChar (b / 16), hexDigitChar (b % 16)]

/-- `MerkleTree.encode_hash`: `'h:' + hexlify(bytes)`. -/
def encode_hash (bs : List ℕ) : String :=
  ⟨'h' :: ':' :: bs.foldr (fun b acc => hexEncodeByte b ++ acc) []⟩

/-- The `[MerkleTree.decode_hash(h) for h in leaf_hashes]` comprehension
(first failing decode raises). -/
def decodeAll : List String → Option (List (List ℕ))
  | [] => some []
  | l :: rest => do
    let bs ← decode_hash l
    let tail ← decodeAll rest
    pure (bs :: tail)

/-- `MerkleTree.hash_node`: `sha256(left + right)`. -/
def hash_node (H : List ℕ → List ℕ) (l r : List ℕ) : List ℕ := H (l ++ r)

/-- One pass of the `for i in range(0, len(nodes), 2)` pairing loop:
adjacent nodes pair up, a trailing odd node is duplicated. -/
def levelUp (H : List ℕ → List ℕ) : List (List ℕ) → List (List ℕ)
  | [] => []
  | [x] => [hash_node H x x]
  | x :: y :: rest => hash_node H x y :: levelUp H rest

/-- The `while len(nodes) > 1` loop of `compute_root`, fuelled. -/
def computeRootAux (H : List ℕ → List ℕ) : ℕ → List (List ℕ) → List (List ℕ)
  | 0, nodes => nodes
  | fuel + 1, nodes =>
    if nodes.length ≤ 1 then nodes else computeRootAux H fuel (levelUp H nodes)

/-- The byte-level Merkle root (`nodes[0]` after the loop). -/
def computeRootBytes (H : List ℕ → List ℕ) (nodes : List (List ℕ)) : List ℕ :=
  (computeRootAux H nodes.length nodes).headD []

/-- `MerkleTree.compute_root` on `h:<hex>` leaf strings. -/
def compute_root (H : List ℕ → List ℕ) (leaf_hashes : List String) :
    Option String :=
  if leaf_hashes = [] then some (encode_hash (List.replicate 32 0))
  else
    (decodeAll leaf_hashes).map
      (fun nodes => encode_hash (computeRootBytes H nodes))

/-- The `while` loop of `compute_proof`, fuelled: at each level record
the sibling of the tracked index (right sibling — or the duplicated
node itself — when the index is even, left sibling when odd), then
ascend with `level_index //= 2`. -/
def computeProofAux (H : List ℕ → List ℕ) :
    ℕ → List (List ℕ) → ℕ → List (Bool × String)
  | 0, _, _ => []
  | fuel + 1, nodes, idx =>
    if nodes.length ≤ 1 then []
    else
      (if idx % 2 = 0 then
        (if idx + 1 < nodes.length then
          [(false, encode_hash (nodes.getD (idx + 1) []))]
         else
          [(false, encode_hash (nodes.getD idx []))])
       else [(true, encode_hash (nodes.getD (idx - 1) []))]) ++
      computeProofAux H fuel (levelUp H nodes) (idx / 2)

/-- `MerkleTree.compute_proof`: reject an out-of-range index
(`ValueError`), decode all leaves, then collect siblings level by
level. -/
def compute_proof (H : List ℕ → List ℕ) (leaf_hashes : List String)
    (leaf_index : ℕ) : Option (List (Bool × String)) :=
  if leaf_index < leaf_hashes.length then
    (decodeAll leaf_hashes).map
      (fun nodes => computeProofAux H nodes.length nodes leaf_index)
  else none

/-- The per-proof-entry step of `verify_proof`: decode the sibling and
hash on the recorded side. -/
def verifyStep (H : List ℕ → List ℕ) (cur : List ℕ) (p : Bool × String) :
    Option (List ℕ) := do
  let sibling ← decode_hash p.2
  pure (if p.1 then hash_node H sibling cur else hash_node H cur sibling)

/-- `MerkleTree.verify_proof`: fold the proof entries from the decoded
leaf and compare the re-encoded result against the root string. -/
def verify_proof (H : List ℕ → List ℕ) (leaf_hash : String)
    (proof : List (Bool × String)) (root : String) : Option Bool := do
  let start ← decode_hash leaf_hash
  let current ← proof.foldlM (verifyStep H) start
  pure (encode_hash current == root)

end NK1.Merkle

namespace NK1.ValueCanon

open PyStr

/-! ## ValueCanon (src/nk1/value_canon.py)

`ValueCanon.canon` maps a Python value to its canonical tagged form:
ints/rational pairs/strings/bytes become tagged strings, a bool becomes
the dict `{"t": "bool", "v": value}`, a dict becomes a list of
`[canon(k), canon(v)]` pairs sorted by the raw UTF-8 bytes of the key,
a list maps elementwise, `None` stays `None`, and a float raises.
`PyValue` is the domain (floats, which always raise, are left out);
`CanonValue` is the exact range of `canon`.

`unicodedata.normalize('NFC', _)` is not re-implemented: it enters as
an explicit function argument `nfc` (it is the identity on ASCII).

The dict branch sorts `value.items()` by `kv[0].encode('utf-8')` and
then canons each pair; the embedding computes each pair's canon tagged
with the raw key bytes and then insertion-sorts by those bytes — the
same result, since sorting only inspects the untouched keys (Python
dict keys are unique, so stability never matters).

`ValueCanon.parse` takes any value: a string is dispatched on its tag
(`int(...)` on a malformed decimal, a missing `:` in a `q:` token
(`parts[1]` IndexError) or an invalid base64 group raise — modelled as
`Option`), the bare strings `true`/`false` map to bools, any other
string and every non-string input is returned unchanged. -/

/-- The supported Python value shapes. -/
inductive PyValue where
  | none
  | bool (b : Bool)
  | int (n : ℤ)
  | str (s : String)
  | bytes (bs : List ℕ)
  | pair (num den : ℤ)
  | list (xs : List PyValue)
  | dict (kvs : List (String × PyValue))

/-- The range of `canon`: `None`, tagged strings, the bool-tag dict,
and nested lists. -/
inductive CanonValue where
  | cnone
  | cstr (s : String)
  | cboolTag (b : Bool)
  | clist (xs : List CanonValue)

/-- One character of `str.encode('utf-8')`. -/
def utf8EncodeChar (c : Char) : List ℕ :=
  let n := c.toNat
  if n < 128 then [n]
  else if n < 2048 then [192 + n / 64, 128 + n % 64]
  else if n < 65536 then [224 + n / 4096, 128 + n / 64 % 64, 128 + n % 64]
  else [240 + n / 262144, 128 + n / 4096 % 64, 128 + n / 64 % 64, 128 + n % 64]

/-- `str.encode('utf-8')` as a byte list. -/
def utf8Bytes (s : String) : List ℕ :=
  s.data.foldr (fun c acc => utf8EncodeChar c ++ acc) []

/-- Lexicographic `≤` on byte lists (the order `sorted` uses on
`bytes`). -/
def bytesLe : List ℕ → List ℕ → Bool
  | [], _ => true
  | _ :: _, [] => false
  | a :: as, b :: bs => if a < b then true else if b < a then false else bytesLe as bs

/-- Insert one key-tagged entry into a byte-sorted list. -/
def insertTagged (x : List ℕ × CanonValue) :
    List (List ℕ × CanonValue) → List (List ℕ × CanonValue)
  | [] => [x]
  | y :: rest => if bytesLe y.1 x.1 then y :: insertTagged x rest
                 else x :: y :: rest

/-- Insertion sort by the tagged key bytes (`sorted(value.items(),
key=lambda kv: kv[0].encode('utf-8'))`). -/
def insertionSortTagged : List (List ℕ × CanonValue) → List (List ℕ × CanonValue)
  | [] => []
  | x :: rest => insertTagged x (insertionSortTagged rest)

/-- The urlsafe base64 alphabet character for a 6-bit value. -/
def b64Char (n : ℕ) : Char :=
  if n < 26 then Char.ofNat (65 + n)
  else if n < 52 then Char.ofNat (97 + (n - 26))
  else if n < 62 then Char.ofNat (48 + (n - 52))
  else if n = 62 then '-' else '_'

/-- `base64.urlsafe_b64encode(value).rstrip(b'=')`: 3-byte groups
become 4 characters; 1 or 2 trailing bytes become 2 or 3 characters
(the padding `=` already stripped). -/
def b64encodeChars : List ℕ → List Char
  | [] => []
  | [a] => [b64Char (a / 4), b64Char (a % 4 * 16)]
  | [a, b] => [b64Char (a / 4), b64Char (a % 4 * 16 + b / 16), b64Char (b % 16 * 4)]
  | a :: b :: c :: rest =>
    b64Char (a / 4) :: b64Char (a % 4 * 16 + b / 16) ::
    b64Char (b % 16 * 4 + c / 64) :: b64Char (c % 64) :: b64encodeChars rest

/-- 6-bit value of an urlsafe base64 character. -/
def b64ValChar (c : Char) : Option ℕ :=
  if 65 ≤ c.toNat ∧ c.toNat ≤ 90 then some (c.toNat - 65)
  else if 97 ≤ c.toNat ∧ c.toNat ≤ 122 then some (c.toNat - 71)
  else if 48 ≤ c.toNat ∧ c.toNat ≤ 57 then some (c.toNat + 4)
  else if c = '-' then some 62
  else if c = '_' then some 63
  else none

/-- `base64.urlsafe_b64decode` after the `'='`-padding fix-up in
`parse`: 4-character groups yield 3 bytes, a trailing 2- or
3-character group (which `parse` pads to 4) yields 1 or 2 bytes, and a
trailing single character is invalid padding. -/
def b64decodeChars : List Char → Option (List ℕ)
  | [] => some []
  | [_] => none
  | [c1, c2] => do
    let v1 ← b64ValChar c1
    let v2 ← b64ValChar c2
    pure [v1 * 4 + v2 / 16]
  | [c1, c2, c3] => do
    let v1 ← b64ValChar c1
    let v2 ← b64ValChar c2
    let v3 ← b64ValChar c3
    pure [v1 * 4 + v2 / 16, v2 % 16 * 16 + v3 / 4]
  | c1 :: c2 :: c3 :: c4 :: rest => do
    let v1 ← b64ValChar c1
    let v2 ← b64ValChar c2
    let v3 ← b64ValChar c3
    let v4 ← b64ValChar c4
    let tail ← b64decodeChars rest
    pure ([v1 * 4 + v2 / 16, v2 % 16 * 16 + v3 / 4, v3 % 4 * 64 + v4] ++ tail)

mutual

/-- `ValueCanon.canon`. -/
def canon (nfc : String → String) : PyValue → CanonValue
  | .none => .cnone
  | .bool b => .cboolTag b
  | .int n => .cstr ("i:" ++ intDecimal n)
  | .pair num den =>
    .cstr (if den = 1 then "q:1:" ++ intDecimal num
           else "q:" ++ intDecimal den ++ ":" ++ intDecimal num)
  | .str s => .cstr ("s:" ++ nfc s)
  | .bytes bs => .cstr ("b64:" ++ String.mk (b64encodeChars bs))
  | .dict kvs =>
    .clist ((insertionSortTagged (canonTagged nfc kvs)).map (fun p => p.2))
  | .list xs => .clist (canonList nfc xs)

/-- Elementwise canon of a list. -/
def canonList (nfc : String → String) : List PyValue → List CanonValue
  | [] => []
  | x :: rest => canon nfc x :: canonList nfc rest

/-- `[[canon(k), canon(v)] ...]` for dict items, tagged with the raw
key bytes used for sorting. -/
def canonTagged (nfc : String → String) :
    List (String × PyValue) → List (List ℕ × CanonValue)
  | [] => []
  | (k, v) :: rest =>
    (utf8Bytes k, .clist [.cstr ("s:" ++ nfc k), canon nfc v]) ::
    canonTagged nfc rest

end

/-- A `CanonValue` read back as the Python value it is: tagged strings
are `str`s, the bool tag is the dict `{"t": "bool", "v": value}`,
canonical lists are lists. -/
def canonAsPy : CanonValue → PyValue
  | .cnone => .none
  | .cstr s => .str s
  | .cboolTag b => .dict [("t", .str "bool"), ("v", .bool b)]
  | .clist xs => .list (canonAsPyList xs)
where canonAsPyList : List CanonValue → List PyValue
  | [] => []
  | x :: rest => canonAsPy x :: canonAsPyList rest

/-- `value[2:].split(":", 1)`: characters before the first `:` and the
rest; `none` when there is no `:` at all (then Python's `parts[1]`
raises IndexError). -/
def splitFirstColon : List Char → Option (List Char × List Char)
  | [] => none
  | c :: rest =>
    if c = ':' then some ([], rest)
    else (splitFirstColon rest).map (fun p => (c :: p.1, p.2))

/-- `ValueCanon.parse`. -/
def parse : PyValue → Option PyValue
  | .str s =>
    match s.data with
    | 'i' :: ':' :: rest => (parsePyInt (String.mk rest)).map (fun n => .int n)
    | 'q' :: ':' :: rest => do
      let parts ← splitFirstColon rest
      let den ← parsePyInt (String.mk parts.1)
      let num ← parsePyInt (String.mk parts.2)
      pure (.pair num den)
    | 'b' :: '6' :: '4' :: ':' :: rest =>
      (b64decodeChars rest).map (fun bs => .bytes bs)
    | 's' :: ':' :: rest => some (.str (String.mk rest))
    | _ =>
      if s = "true" then some (.bool true)
      else if s = "false" then some (.bool false)
      else some (.str s)
  | v => some v

mutual

/-- The value domain on which the amended injectivity claim is stated:
no dicts, text components fixed by `nfc` (NFC-normal), byte values
actual bytes. -/
def goodValue (nfc : String → String) : PyValue → Bool
  | .none => true
  | .bool _ => true
  | .int _ => true
  | .str s => nfc s == s
  | .bytes bs => bs.all (fun b => decide (b < 256))
  | .pair _ _ => true
  | .list xs => goodList nfc xs
  | .dict _ => false

def goodList (nfc : String → String) : List PyValue → Bool
  | [] => true
  | x :: rest => goodValue nfc x && goodList nfc rest

end

/-- The scalar shapes for which `parse` inverts `canon`: integers,
NFC-normal text, byte strings, rational pairs. -/
def scalarShape (nfc : String → String) : PyValue → Bool
  | .int _ => true
  | .str s => nfc s == s
  | .bytes bs => bs.all (fun b => decide (b < 256))
  | .pair _ _ => true
  | _ => false

end NK1.ValueCanon

namespace CK0.Fixtures

open CK0.Receipts

/-! Concrete fixtures used to instantiate the parametric theorems. -/

/-- A computable stand-in digest used to instantiate the abstract `H`
in witnesses: `"h:" ++ decimal length of the preimage`.  It
distinguishes preimages of different lengths, which is all the
witnesses need. -/
def lenHash (s : String) : String := "h:" ++ PyStr.natDecimal s.data.length

/-- A concrete `create_step_receipt` argument tuple. -/
def args0 : CreateArgs :=
  { step_index := 0
    prev_hash := ""
    state_hash_before := "h:aa"
    state_hash_after := "h:bb"
    debt_before := 100
    debt_after := 50
    service_law_id := "CK0.service.v1.linear_capped"
    service_law_instance := "linear_capped.mu:1"
    service_provided := 50
    disturbance_policy_id := "DP0"
    disturbance := 0
    transition_id := "t0"
    transition_success := true
    invariant_status := true
    law_satisfied := true }

/-- A concrete construction time. -/
def t0 : String := "2024-01-01T00:00:00Z"

/-- A computable byte-level stand-in for `hashlib.sha256` used in
witnesses: a one-byte digest of the preimage length. -/
def byteLenHash (x : List ℕ) : List ℕ := [x.length % 256]

/-- A second, different construction time. -/
def t1 : String := "2024-01-01T00:00:01Z"

end CK0.Fixtures

namespace CK0.Claims

open CK0.BudgetLaw

/-- `roundHalfEven` on an exactly-integral scaled value returns it. -/
theorem roundHalfEven_int (q : ℚ) (s : ℤ) (n : ℤ) (h : q * (s : ℚ) = (n : ℚ)) :
    CK0.roundHalfEven q s = n := by
  simp only [CK0.roundHalfEven, h, Rat.num_intCast, Rat.den_intCast]
  norm_num

/-- Sanity: at `mu = 1`, `linear_capped_service` is `min debt budget`. -/
theorem linearCapped1_eq_min (d b : ℕ) : linearCapped1 d b = min d b := by
  unfold linearCapped1 linear_capped_serviceZ pyInt
  have h1 : ((1 : ℚ) * (b : ℚ)) = (b : ℚ) := one_mul _
  rw [h1, Rat.num_natCast, Rat.den_natCast]
  have h2 : Int.tdiv (b : ℤ) ((1 : ℕ) : ℤ) = (b : ℤ) := by
    norm_num
  rw [h2]
  omega

/-- C7: `compute_budget_law` returns `service = S(D, B)` and
`debt_next = max(0, D - service) + E` for every debt `D`, budget `B`,
disturbance `E` and service law `S`; with the capped-linear law at
`mu = 1`, `D = 100`, `B = 50`, `E = 0` it yields `service = 50` and
`debt_next = 50`, and with `E = 10` it yields `debt_next = 60`. -/
theorem compute_budget_law_spec :
    (∀ (D B E : ℕ) (law : ServiceLaw) (pol : Option DisturbancePolicy),
      (compute_budget_law D B E law pol).service = law.service_fn D B ∧
      ((compute_budget_law D B E law pol).debt_next : ℤ) =
        max 0 ((D : ℤ) - (law.service_fn D B : ℤ)) + (E : ℤ)) ∧
    (compute_budget_law 100 50 0 LINEAR_CAPPED_MU_1 (some ZERO_DISTURBANCE)).service
      = 50 ∧
    (compute_budget_law 100 50 0 LINEAR_CAPPED_MU_1 (some ZERO_DISTURBANCE)).debt_next
      = 50 ∧
    (compute_budget_law 100 50 10 LINEAR_CAPPED_MU_1 (some ZERO_DISTURBANCE)).debt_next
      = 60 := by
  refine ⟨fun D B E law pol => ⟨rfl, ?_⟩, ?_, ?_, ?_⟩
  · show (((if D ≥ law.service_fn D B then D - law.service_fn D B else 0) + E : ℕ) : ℤ) = _
    split <;> push_cast <;> omega
  · show linearCapped1 100 50 = 50
    rw [linearCapped1_eq_min]; decide
  · show (if (100 : ℕ) ≥ linearCapped1 100 50 then 100 - linearCapped1 100 50 else 0) + 0 = 50
    rw [linearCapped1_eq_min]; decide
  · show (if (100 : ℕ) ≥ linearCapped1 100 50 then 100 - linearCapped1 100 50 else 0) + 10 = 60
    rw [linearCapped1_eq_min]; decide

/-- C4 (code behaviour at the failing inputs): `from_fraction` rounds
`frac * scale` half-even, so `from_fraction(5/2, 1000) = 2500` and
`from_fraction(7/2, 1000) = 3500` — not `2000` / `4000` as the spec and
the repository's own tests (`test_debtunit.py`) assert. -/
theorem from_fraction_failing_inputs :
    CK0.from_fraction (5 / 2 : ℚ) 1000 = 2500 ∧
    CK0.from_fraction (7 / 2 : ℚ) 1000 = 3500 := by
  constructor
  · unfold CK0.from_fraction
    rw [roundHalfEven_int (5 / 2 : ℚ) 1000 2500 (by norm_num)]
    decide
  · unfold CK0.from_fraction
    rw [roundHalfEven_int (7 / 2 : ℚ) 1000 3500 (by norm_num)]
    decide

/-- C10: whenever the half-even rounded value would be negative (in
particular for every negative `frac` at a positive scale),
`from_fraction` silently returns `DebtUnit(0)` — the `max(0, rounded)`
clamp — instead of raising. -/
theorem from_fraction_clamps_negative (frac : ℚ) (scale : ℤ) :
    (roundHalfEven frac scale < 0 → CK0.from_fraction frac scale = 0) ∧
    (frac < 0 → 0 < scale → CK0.from_fraction frac scale = 0) := by
  constructor
  · intro h
    unfold CK0.from_fraction
    omega
  · intro hfrac hscale
    have hlt : CK0.roundHalfEven frac scale ≤ 0 := by
      have hsc : frac * (scale : ℚ) < 0 :=
        mul_neg_of_neg_of_pos hfrac (by exact_mod_cast hscale)
      have hnum : (frac * (scale : ℚ)).num < 0 := Rat.num_neg.mpr hsc
      have hden : (0 : ℤ) < ((frac * (scale : ℚ)).den : ℤ) := by
        exact_mod_cast (frac * (scale : ℚ)).den_pos
      have hdiv : (frac * (scale : ℚ)).num / ((frac * (scale : ℚ)).den : ℤ) < 0 :=
        Int.ediv_neg' hnum hden
      simp only [roundHalfEven]
      generalize (frac * (scale : ℚ)).num % ((frac * (scale : ℚ)).den : ℤ) = r
      generalize hq : (frac * (scale : ℚ)).num / ((frac * (scale : ℚ)).den : ℤ) = q at hdiv ⊢
      split_ifs <;> omega
    unfold CK0.from_fraction
    omega

/-- C10 witness: `from_fraction(-5/2, 1000)` (rounded value `-2500 < 0`)
and `from_fraction(-1, 1000)` both return `DebtUnit(0)`. -/
theorem from_fraction_clamps_negative_witness :
    CK0.from_fraction (-(5 / 2) : ℚ) 1000 = 0 ∧
    CK0.from_fraction (-1 : ℚ) 1000 = 0 :=
  ⟨(from_fraction_clamps_negative (-(5 / 2)) 1000).1
      (by rw [roundHalfEven_int (-(5 / 2) : ℚ) 1000 (-2500) (by norm_num)]; decide),
   (from_fraction_clamps_negative (-1) 1000).2 (by norm_num) (by norm_num)⟩

end CK0.Claims

namespace CK0.Claims.Strings

open PyStr

/-! Helper lemmas about the string primitives. -/

theorem string_mk_inj {a b : List Char} (h : String.mk a = String.mk b) :
    a = b := by
  simpa using congrArg String.data h

theorem append_cancel {a c : String} {b d : String}
    (h : a ++ b ++ c = a ++ d ++ c) : b = d := by
  have hd : a.data ++ b.data ++ c.data = a.data ++ d.data ++ c.data := by
    have h' := congrArg String.data h
    simpa only [String.data_append] using h'
  rw [List.append_assoc, List.append_assoc] at hd
  have h1 : b.data ++ c.data = d.data ++ c.data := List.append_cancel_left hd
  have h2 : b.data = d.data := List.append_cancel_right h1
  exact congrArg String.mk h2

theorem jsonEscapeChar_ne_nil (c : Char) : jsonEscapeChar c ≠ [] := by
  unfold jsonEscapeChar
  split_ifs <;> simp [uEscape]

theorem jsonEscape_eq_empty {s : String} (h : jsonEscape s = "") : s = "" := by
  cases s with
  | mk data =>
    cases data with
    | nil => rfl
    | cons c cs =>
      exfalso
      have hd : (jsonEscapeChar c ++ cs.foldr (fun c acc => jsonEscapeChar c ++ acc) []) = [] := by
        simpa [jsonEscape] using congrArg String.data h
      exact jsonEscapeChar_ne_nil c (List.append_eq_nil.mp hd).1

theorem jsonStr_empty_of_eq {s : String} (h : jsonStr s = jsonStr "") :
    s = "" := by
  have h1 : jsonEscape s = jsonEscape "" := by
    have := h
    unfold jsonStr at this
    exact append_cancel this
  exact jsonEscape_eq_empty (by simpa [jsonEscape] using h1)

end CK0.Claims.Strings

namespace CK0.Claims

open PyStr CK0.BudgetLaw CK0.Receipts CK0.Verifier CK0.Fixtures
open CK0.Claims.Strings

/-- C1 (code behaviour at the failing input): on a receipt whose
recorded `debt_after` (999) differs from the budget-law recomputation
(50), `_verify_step_receipt` raises no `FAIL_LAW` error — for any
digest function — because it only checks `law_satisfied` (the
disturbance-policy flag) and never compares `law_result.debt_next`
against `receipt.debt_after`; with a digest under which the receipt's
hash check passes, the whole step verification passes. -/
theorem verifier_ignores_debt_after (H : String → String) :
    (∀ e ∈ (verify_step_receipt H LINEAR_CAPPED_MU_1 ZERO_DISTURBANCE
        mismatchedReceipt none).errors,
      e.code ≠ VerificationResult.FAIL_LAW) ∧
    (compute_budget_law mismatchedReceipt.debt_before
        mismatchedReceipt.service_provided mismatchedReceipt.E_k
        LINEAR_CAPPED_MU_1 (some ZERO_DISTURBANCE)).debt_next = 50 ∧
    mismatchedReceipt.debt_after = 999 ∧
    (verify_step_receipt (fun _ => "") LINEAR_CAPPED_MU_1 ZERO_DISTURBANCE
        mismatchedReceipt none).passed = true := by
  have h50 : linearCapped1 100 50 = 50 := by
    rw [linearCapped1_eq_min]; decide
  refine ⟨?_, ?_, rfl, ?_⟩
  · intro e he
    simp only [verify_step_receipt, compute_budget_law, validate_e,
      ZERO_DISTURBANCE, LINEAR_CAPPED_MU_1, LINEAR_CAPPED_ID,
      mismatchedReceipt, DisturbancePolicyID.value] at he
    simp only [List.mem_append] at he
    rcases he with ((((((h | h) | h) | h) | h) | h))
    all_goals
      first
        | (split at h <;> simp_all)
        | simp_all
  · simp only [compute_budget_law, LINEAR_CAPPED_MU_1, mismatchedReceipt, h50]
    decide
  · simp [verify_step_receipt, compute_budget_law, validate_e,
      ZERO_DISTURBANCE, LINEAR_CAPPED_MU_1, LINEAR_CAPPED_ID,
      mismatchedReceipt, DisturbancePolicyID.value, compute_hash]

/-- C2 (code behaviour): `create_step_receipt` computes the hash of the
canonical JSON in which the `receipt_hash` field still holds `""`, then
stores it into that very field.  Since `canonical_json` serializes the
`receipt_hash` field, the finished receipt's canonical bytes differ
from the hashed preimage whenever the digest is non-empty; so whenever
the digest also distinguishes the two preimages (as a collision-free
hash does), `receipt.compute_hash() != receipt.receipt_hash` and
`ReceiptChain.add_step_receipt` rejects the freshly created receipt. -/
theorem create_step_receipt_hash_not_self_consistent
    (H : String → String) (a : CK0.Receipts.CreateArgs) (t : String)
    (h0 : H (canonicalJson (rawReceipt a t)) ≠ "") :
    (create_step_receipt H a t).receipt_hash
        = H (canonicalJson (rawReceipt a t)) ∧
    canonicalJson (create_step_receipt H a t) ≠ canonicalJson (rawReceipt a t) ∧
    (H (canonicalJson (create_step_receipt H a t))
        ≠ H (canonicalJson (rawReceipt a t)) →
      ∃ msg, add_step_receipt H emptyChain (create_step_receipt H a t)
        = Except.error msg) := by
  refine ⟨rfl, ?_, ?_⟩
  · intro heq
    have hpre : canonicalJsonPre (create_step_receipt H a t)
        = canonicalJsonPre (rawReceipt a t) := rfl
    have hpost : canonicalJsonPost (create_step_receipt H a t)
        = canonicalJsonPost (rawReceipt a t) := rfl
    unfold canonicalJson at heq
    rw [hpre, hpost] at heq
    have hjs : jsonStr (create_step_receipt H a t).receipt_hash
        = jsonStr (rawReceipt a t).receipt_hash := append_cancel heq
    have hempty : (create_step_receipt H a t).receipt_hash = "" :=
      jsonStr_empty_of_eq hjs
    exact h0 hempty
  · intro hne
    have hcond : compute_hash H (create_step_receipt H a t)
        ≠ (create_step_receipt H a t).receipt_hash := hne
    simp only [add_step_receipt]
    rw [if_pos hcond]
    exact ⟨_, rfl⟩

/-- C2 witness: with the concrete length digest and concrete arguments,
the stored hash is the raw-preimage digest, the finished canonical
bytes differ from that preimage, and `add_step_receipt` rejects the
receipt. -/
theorem create_step_receipt_hash_not_self_consistent_witness :
    (create_step_receipt CK0.Fixtures.lenHash CK0.Fixtures.args0 CK0.Fixtures.t0).receipt_hash
        = CK0.Fixtures.lenHash (canonicalJson (rawReceipt CK0.Fixtures.args0 CK0.Fixtures.t0)) ∧
    canonicalJson (create_step_receipt CK0.Fixtures.lenHash CK0.Fixtures.args0 CK0.Fixtures.t0)
        ≠ canonicalJson (rawReceipt CK0.Fixtures.args0 CK0.Fixtures.t0) ∧
    (∃ msg, add_step_receipt CK0.Fixtures.lenHash emptyChain
        (create_step_receipt CK0.Fixtures.lenHash CK0.Fixtures.args0 CK0.Fixtures.t0)
      = Except.error msg) := by
  have h := create_step_receipt_hash_not_self_consistent CK0.Fixtures.lenHash
    CK0.Fixtures.args0 CK0.Fixtures.t0 (by decide)
  exact ⟨h.1, h.2.1, h.2.2 (by decide)⟩

/-- C3 counterexample: two `create_step_receipt` invocations with
identical arguments but different ambient wall-clock timestamps produce
receipts with different canonical JSON bytes (the claim asserts the
bytes and hash are identical for every fixed argument tuple). -/
theorem create_step_receipt_time_cex :
    canonicalJson (create_step_receipt CK0.Fixtures.lenHash CK0.Fixtures.args0 CK0.Fixtures.t0)
      ≠ canonicalJson (create_step_receipt CK0.Fixtures.lenHash CK0.Fixtures.args0 CK0.Fixtures.t1) := by
  decide

/-- C3 (amended): `create_step_receipt` is a pure function of its
arguments *and* the ambient construction timestamp: equal timestamps
give identical receipts (hence identical canonical bytes and
`receipt_hash`), and the only receipt fields through which the
wall-clock time can enter at all are `timestamp` and the `receipt_hash`
derived from it. -/
theorem create_step_receipt_deterministic_given_time
    (H : String → String) (a : CK0.Receipts.CreateArgs) (t₁ t₂ : String) :
    (t₁ = t₂ →
      create_step_receipt H a t₁ = create_step_receipt H a t₂ ∧
      canonicalJson (create_step_receipt H a t₁)
        = canonicalJson (create_step_receipt H a t₂) ∧
      (create_step_receipt H a t₁).receipt_hash
        = (create_step_receipt H a t₂).receipt_hash) ∧
    ({ create_step_receipt H a t₁ with timestamp := t₂, receipt_hash := "" }
      = { create_step_receipt H a t₂ with timestamp := t₂, receipt_hash := "" }) := by
  constructor
  · rintro rfl
    exact ⟨rfl, rfl, rfl⟩
  · rfl

/-- C3 witness: the amended determinism applied at concrete inputs with
equal timestamps. -/
theorem create_step_receipt_deterministic_given_time_witness :
    create_step_receipt CK0.Fixtures.lenHash CK0.Fixtures.args0 CK0.Fixtures.t0
      = create_step_receipt CK0.Fixtures.lenHash CK0.Fixtures.args0 CK0.Fixtures.t0 :=
  ((create_step_receipt_deterministic_given_time CK0.Fixtures.lenHash
      CK0.Fixtures.args0 CK0.Fixtures.t0 CK0.Fixtures.t0).1 rfl).1

end CK0.Claims

namespace CK0.Claims.Transitions

open CK0.Transition

/-! Helper lemmas for the transition contract. -/

theorem compositeLoop_append {V A : Type} (ks : Kernels V A) (s : State V)
    (l1 l2 : List (TransitionDescriptor V A)) :
    compositeLoop ks s (l1 ++ l2) =
      (match compositeLoop ks s l1 with
       | .ok t => compositeLoop ks t l2
       | .error e => .error e) := by
  induction l1 generalizing s with
  | nil => simp [compositeLoop]
  | cons d rest ih =>
    simp only [List.cons_append, compositeLoop]
    by_cases h : (apply ks s d).success
    · simp only [h, if_true]
      exact ih (apply ks s d).new_state
    · simp [h]

theorem apply_fail_new_state {V A : Type} (ks : Kernels V A) (s : State V)
    (d : TransitionDescriptor V A) (h : (apply ks s d).success = false) :
    (apply ks s d).new_state = s := by
  cases d with
  | kernel_call tid kid args =>
    simp only [apply] at h ⊢
    cases hk : applyKernel ks s kid args with
    | ok ns => rw [hk] at h; exact Bool.noConfusion h
    | error e => rfl
  | field_update tid updates =>
    simp only [apply] at h ⊢
    cases hk : applyFieldUpdate s updates with
    | ok ns => rw [hk] at h; exact Bool.noConfusion h
    | error e => rfl
  | composite tid steps =>
    simp only [apply] at h ⊢
    cases hk : (if steps.isEmpty then
        Except.error "steps required for composite transition"
      else compositeLoop ks s steps : Except String (State V)) with
    | ok ns => rw [hk] at h; exact Bool.noConfusion h
    | error e => rfl

end CK0.Claims.Transitions

namespace CK0.Claims

open CK0.Transition CK0.Claims.Transitions

/-- C8: `TransitionContract.apply` always returns a `TransitionResult`
(the embedding is a total function — the `try/except` swallows every
raised error) and never mutates its input (states are values); whenever
it fails, the result's `new_state` is the original input state; and for
a composite descriptor whose prefix `pre` succeeds and whose next
sub-step `bad` fails, the result is a failure carrying the original
input state, and it is unchanged by whatever sub-steps follow `bad` —
no later sub-step is applied. -/
theorem transition_apply_total_and_composite_aborts {V A : Type}
    (ks : Kernels V A) (s : State V) (d : TransitionDescriptor V A)
    (tid : String) (pre : List (TransitionDescriptor V A))
    (bad : TransitionDescriptor V A)
    (post post' : List (TransitionDescriptor V A)) (s' : State V)
    (hpre : compositeLoop ks s pre = .ok s')
    (hbad : (apply ks s' bad).success = false) :
    ((apply ks s d).success = false → (apply ks s d).new_state = s) ∧
    (apply ks s (.composite tid (pre ++ bad :: post))).success = false ∧
    (apply ks s (.composite tid (pre ++ bad :: post))).new_state = s ∧
    (apply ks s (.composite tid (pre ++ bad :: post))).error_message
      = (apply ks s (.composite tid (pre ++ bad :: post'))).error_message := by
  have hloop : ∀ q : List (TransitionDescriptor V A),
      compositeLoop ks s (pre ++ bad :: q) =
        .error ("Composite step failed: " ++
          (apply ks s' bad).error_message.getD "None") := by
    intro q
    rw [compositeLoop_append, hpre]
    simp only [compositeLoop, hbad, if_false, Bool.false_eq_true]
  have happly : ∀ q : List (TransitionDescriptor V A),
      apply ks s (.composite tid (pre ++ bad :: q)) =
        ⟨s, .composite tid (pre ++ bad :: q), false,
         some ("Composite step failed: " ++
           (apply ks s' bad).error_message.getD "None")⟩ := by
    intro q
    have hne : (pre ++ bad :: q).isEmpty = false := by
      cases pre <;> rfl
    simp only [apply, hne, if_false, Bool.false_eq_true, hloop q]
  refine ⟨apply_fail_new_state ks s d, ?_, ?_, ?_⟩
  · rw [happly post]
  · rw [happly post]
  · rw [happly post, happly post']

/-- C8 witness: concrete composite over `V = ℕ`, `A = Unit` — the empty
prefix succeeds, the kernel call without a `kernel_id` fails, and the
trailing field update is never applied: the result is a failure that
returns the original one-field state unchanged, identical with the
trailing step removed. -/
theorem transition_apply_total_and_composite_aborts_witness :
    ((apply ([] : Kernels ℕ Unit) ⟨[("f:x", 1)]⟩
        (.composite "c" ([] ++ .kernel_call "k" none () ::
          [.field_update "u" [("f:x", 2)]]))).success = false) ∧
    ((apply ([] : Kernels ℕ Unit) ⟨[("f:x", 1)]⟩
        (.composite "c" ([] ++ .kernel_call "k" none () ::
          [.field_update "u" [("f:x", 2)]]))).new_state = ⟨[("f:x", 1)]⟩) ∧
    ((apply ([] : Kernels ℕ Unit) ⟨[("f:x", 1)]⟩
        (.composite "c" ([] ++ .kernel_call "k" none () ::
          [.field_update "u" [("f:x", 2)]]))).error_message
      = (apply ([] : Kernels ℕ Unit) ⟨[("f:x", 1)]⟩
        (.composite "c" ([] ++ .kernel_call "k" none () :: []))).error_message) := by
  have h := transition_apply_total_and_composite_aborts
    ([] : Kernels ℕ Unit) ⟨[("f:x", 1)]⟩ (.composite "z" [])
    "c" [] (.kernel_call "k" none ()) [.field_update "u" [("f:x", 2)]] []
    ⟨[("f:x", 1)]⟩ rfl rfl
  exact ⟨h.2.1, h.2.2.1, h.2.2.2⟩

end CK0.Claims

namespace CK0.Claims.Merkle

open NK1.Merkle

/-! Helper lemmas for the Merkle tree. -/

theorem hexDigitVal_hexDigitChar : ∀ d : Fin 16,
    hexDigitVal (PyStr.hexDigitChar d.val) = some d.val := by
  decide

theorem hexRound (d : ℕ) (h : d < 16) :
    hexDigitVal (PyStr.hexDigitChar d) = some d :=
  hexDigitVal_hexDigitChar ⟨d, h⟩

theorem hexDecode_encode : ∀ bs : List ℕ, (∀ b ∈ bs, b < 256) →
    hexDecodeList (bs.foldr (fun b acc => hexEncodeByte b ++ acc) []) = some bs := by
  intro bs
  induction bs with
  | nil => intro _; rfl
  | cons b rest ih =>
    intro hlt
    have hb : b < 256 := hlt b (List.mem_cons_self b rest)
    rw [List.foldr_cons,
      show hexEncodeByte b ++ rest.foldr (fun b acc => hexEncodeByte b ++ acc) []
          = PyStr.hexDigitChar (b / 16) :: PyStr.hexDigitChar (b % 16) ::
            rest.foldr (fun b acc => hexEncodeByte b ++ acc) [] from rfl]
    simp only [hexDecodeList, hexRound (b / 16) (by omega),
      hexRound (b % 16) (by omega), Option.bind_eq_bind, Option.some_bind,
      ih (fun x hx => hlt x (List.mem_cons_of_mem b hx))]
    simp [show 16 * (b / 16) + b % 16 = b from by omega]

theorem decode_encode (bs : List ℕ) (h : ∀ b ∈ bs, b < 256) :
    decode_hash (encode_hash bs) = some bs := by
  simp only [decode_hash, encode_hash]
  exact hexDecode_encode bs h

theorem levelUp_length (H : List ℕ → List ℕ) :
    ∀ l : List (List ℕ), (levelUp H l).length = (l.length + 1) / 2
  | [] => by simp [levelUp]
  | [x] => by simp [levelUp]
  | x :: y :: rest => by
    simp only [levelUp, List.length_cons]
    rw [levelUp_length H rest]
    omega

theorem levelUp_getD (H : List ℕ → List ℕ) :
    ∀ (l : List (List ℕ)) (j : ℕ), 2 * j < l.length →
      (levelUp H l).getD j [] =
        (if 2 * j + 1 < l.length then
          hash_node H (l.getD (2 * j) []) (l.getD (2 * j + 1) [])
         else hash_node H (l.getD (2 * j) []) (l.getD (2 * j) []))
  | [], j, h => by simp at h
  | [x], j, h => by
    have hj : j = 0 := by simp at h; omega
    subst hj
    simp [levelUp]
  | x :: y :: rest, j, h => by
    cases j with
    | zero => simp [levelUp, List.length_cons]
    | succ j' =>
      have h' : 2 * j' < rest.length := by
        simp only [List.length_cons] at h
        omega
      have ihh := levelUp_getD H rest j' h'
      have lhs : (levelUp H (x :: y :: rest)).getD (j' + 1) []
          = (levelUp H rest).getD j' [] := rfl
      have i1 : (x :: y :: rest).getD (2 * (j' + 1)) []
          = rest.getD (2 * j') [] := by
        rw [show 2 * (j' + 1) = 2 * j' + 2 from by omega]
        rfl
      have i2 : (x :: y :: rest).getD (2 * (j' + 1) + 1) []
          = rest.getD (2 * j' + 1) [] := by
        rw [show 2 * (j' + 1) + 1 = 2 * j' + 1 + 2 from by omega]
        rfl
      rw [lhs, ihh, i1, i2]
      simp only [List.length_cons]
      split_ifs <;> first | rfl | omega

theorem levelUp_bytes (H : List ℕ → List ℕ)
    (hH : ∀ y, ∀ b ∈ H y, b < 256) :
    ∀ l : List (List ℕ), ∀ x ∈ levelUp H l, ∀ b ∈ x, b < 256
  | [] => by simp [levelUp]
  | [x] => by
    intro z hz
    simp only [levelUp, hash_node, List.mem_singleton] at hz
    subst hz
    exact hH _
  | x :: y :: rest => by
    intro z hz
    simp only [levelUp, hash_node, List.mem_cons] at hz
    rcases hz with hz | hz
    · subst hz
      exact hH _
    · exact levelUp_bytes H hH rest z (by simpa [levelUp] using hz)

theorem decodeAll_spec :
    ∀ (ls : List String) (ns : List (List ℕ)), decodeAll ls = some ns →
      ls.length = ns.length ∧
      ∀ i, i < ls.length → decode_hash (ls.getD i "") = some (ns.getD i []) := by
  intro ls
  induction ls with
  | nil =>
    intro ns h
    simp only [decodeAll] at h
    cases h
    exact ⟨rfl, by intro i hi; simp at hi⟩
  | cons l rest ih =>
    intro ns h
    simp only [decodeAll, Option.bind_eq_bind] at h
    cases hd : decode_hash l with
    | none => rw [hd] at h; simp at h
    | some b =>
      rw [hd] at h
      simp only [Option.some_bind] at h
      cases ht : decodeAll rest with
      | none => rw [ht] at h; simp at h
      | some bs =>
        rw [ht] at h
        simp only [Option.some_bind, Option.pure_def, Option.some_inj] at h
        subst h
        obtain ⟨hlen, hget⟩ := ih bs ht
        refine ⟨by simp [hlen], ?_⟩
        intro i hi
        cases i with
        | zero => simpa using hd
        | succ i' =>
          simp only [List.getD_cons_succ]
          exact hget i' (by simpa using hi)

theorem foldlM_single_right (H : List ℕ → List ℕ) (cur : List ℕ)
    (sib : List ℕ) (hdec : decode_hash (encode_hash sib) = some sib)
    (rest : List (Bool × String)) :
    ((false, encode_hash sib) :: rest).foldlM (verifyStep H) cur
      = rest.foldlM (verifyStep H) (hash_node H cur sib) := by
  simp [List.foldlM_cons, verifyStep, hdec]

theorem foldlM_single_left (H : List ℕ → List ℕ) (cur : List ℕ)
    (sib : List ℕ) (hdec : decode_hash (encode_hash sib) = some sib)
    (rest : List (Bool × String)) :
    ((true, encode_hash sib) :: rest).foldlM (verifyStep H) cur
      = rest.foldlM (verifyStep H) (hash_node H sib cur) := by
  simp [List.foldlM_cons, verifyStep, hdec]

theorem proof_fold (H : List ℕ → List ℕ) (hH : ∀ y, ∀ b ∈ H y, b < 256) :
    ∀ (fuel : ℕ) (nodes : List (List ℕ)) (idx : ℕ),
      nodes.length ≤ fuel → idx < nodes.length →
      (∀ x ∈ nodes, ∀ b ∈ x, b < 256) →
      (computeProofAux H fuel nodes idx).foldlM (verifyStep H)
          (nodes.getD idx [])
        = some ((computeRootAux H fuel nodes).headD []) := by
  intro fuel
  induction fuel with
  | zero =>
    intro nodes idx hfuel hidx _
    omega
  | succ fuel ih =>
    intro nodes idx hfuel hidx hbytes
    by_cases hlen : nodes.length ≤ 1
    · have h1 : nodes.length = 1 := by omega
      have hidx0 : idx = 0 := by omega
      obtain ⟨a, rfl⟩ : ∃ a, nodes = [a] := by
        cases nodes with
        | nil => simp at h1
        | cons a t =>
          cases t with
          | nil => exact ⟨a, rfl⟩
          | cons b t' => simp at h1
      subst hidx0
      rfl
    · push_neg at hlen
      have hsib_mem : ∀ j, j < nodes.length → ∀ b ∈ nodes.getD j [], b < 256 := by
        intro j hj b hb
        rw [List.getD_eq_getElem nodes [] hj] at hb
        exact hbytes _ (List.getElem_mem hj) b hb
      have hkey := levelUp_getD H nodes (idx / 2)
      have hstep : ∀ rest : List (Bool × String),
          ((if idx % 2 = 0 then
              (if idx + 1 < nodes.length then
                [(false, encode_hash (nodes.getD (idx + 1) []))]
               else [(false, encode_hash (nodes.getD idx []))])
            else [(true, encode_hash (nodes.getD (idx - 1) []))]) ++ rest).foldlM
              (verifyStep H) (nodes.getD idx [])
            = rest.foldlM (verifyStep H) ((levelUp H nodes).getD (idx / 2) []) := by
        intro rest
        by_cases hpar : idx % 2 = 0
        · have h2j : 2 * (idx / 2) = idx := by omega
          by_cases hlast : idx + 1 < nodes.length
          · rw [if_pos hpar, if_pos hlast, List.singleton_append,
              foldlM_single_right H _ _ (decode_encode _ (hsib_mem (idx + 1) hlast))]
            rw [hkey (by omega), if_pos (by omega), h2j]
          · rw [if_pos hpar, if_neg hlast, List.singleton_append,
              foldlM_single_right H _ _ (decode_encode _ (hsib_mem idx hidx))]
            rw [hkey (by omega), if_neg (by omega), h2j]
        · have h2j : 2 * (idx / 2) = idx - 1 := by omega
          have h2j1 : 2 * (idx / 2) + 1 = idx := by omega
          rw [if_neg hpar, List.singleton_append,
            foldlM_single_left H _ _
              (decode_encode _ (hsib_mem (idx - 1) (by omega)))]
          rw [hkey (by omega), if_pos (by omega), h2j1, h2j]
      have hlev_len : (levelUp H nodes).length = (nodes.length + 1) / 2 :=
        levelUp_length H nodes
      simp only [computeProofAux, computeRootAux]
      rw [if_neg (by omega : ¬ nodes.length ≤ 1),
        if_neg (by omega : ¬ nodes.length ≤ 1)]
      rw [hstep (computeProofAux H fuel (levelUp H nodes) (idx / 2))]
      exact ih (levelUp H nodes) (idx / 2)
        (by rw [hlev_len]; omega) (by rw [hlev_len]; omega)
        (levelUp_bytes H hH nodes)

end CK0.Claims.Merkle

namespace CK0.Claims

open NK1.Merkle CK0.Claims.Merkle

/-- C9: a Merkle tree over a single (well-formed `h:<hex>`) leaf hash
has that leaf as its root, and for every decodable list of leaf hashes
and every valid index `i`, the proof from `compute_proof` verifies the
leaf `leaves[i]` against `compute_root`'s root — for any digest
function producing byte lists (`hashlib.sha256` produces 32 bytes).
The embedding pairs adjacent nodes, duplicates a trailing odd node and
sets `parent = H(left ++ right)` exactly as the code's level loop
does. -/
theorem merkle_root_and_proof_verify (H : List ℕ → List ℕ)
    (hH : ∀ y, ∀ b ∈ H y, b < 256)
    (leaves : List String) (nodes : List (List ℕ)) (i : ℕ)
    (hdec : decodeAll leaves = some nodes)
    (hbytes : ∀ x ∈ nodes, ∀ b ∈ x, b < 256)
    (hi : i < leaves.length) :
    (∀ bs : List ℕ, (∀ b ∈ bs, b < 256) →
      compute_root H [encode_hash bs] = some (encode_hash bs)) ∧
    ∃ proof root, compute_proof H leaves i = some proof ∧
      compute_root H leaves = some root ∧
      verify_proof H (leaves.getD i "") proof root = some true := by
  obtain ⟨hlen, hget⟩ := decodeAll_spec leaves nodes hdec
  constructor
  · intro bs hb
    unfold compute_root
    rw [if_neg (by simp)]
    rw [show decodeAll [encode_hash bs] = some [bs] from by
      simp [decodeAll, decode_encode bs hb]]
    simp [computeRootBytes, computeRootAux]
  · refine ⟨computeProofAux H nodes.length nodes i,
      encode_hash (computeRootBytes H nodes), ?_, ?_, ?_⟩
    · unfold compute_proof
      rw [if_pos hi, hdec]
      rfl
    · unfold compute_root
      rw [if_neg (by intro h; subst h; simp at hi), hdec]
      rfl
    · unfold verify_proof
      rw [hget i hi]
      have hfold := proof_fold H hH nodes.length nodes i (le_refl _)
        (by omega) hbytes
      simp only [Option.bind_eq_bind, Option.some_bind]
      rw [hfold]
      simp [computeRootBytes]

/-- C9 witness: over the two leaves `h:00ff`, `h:01` and the concrete
one-byte length digest, the single-leaf root is the leaf itself, the
proof for index 0 is the right sibling `h:01`, the root is `h:03`, and
verification succeeds. -/
theorem merkle_root_and_proof_verify_witness :
    compute_root CK0.Fixtures.byteLenHash [encode_hash [0, 255]]
      = some (encode_hash [0, 255]) ∧
    compute_proof CK0.Fixtures.byteLenHash ["h:00ff", "h:01"] 0
      = some [(false, "h:01")] ∧
    compute_root CK0.Fixtures.byteLenHash ["h:00ff", "h:01"] = some "h:03" ∧
    verify_proof CK0.Fixtures.byteLenHash "h:00ff" [(false, "h:01")] "h:03"
      = some true := by
  have h := merkle_root_and_proof_verify CK0.Fixtures.byteLenHash
    (by
      intro y b hb
      simp [CK0.Fixtures.byteLenHash] at hb
      omega)
    ["h:00ff", "h:01"] [[0, 255], [1]] 0 (by decide) (by decide) (by decide)
  obtain ⟨h1, pf, rt, hp, hr, hv⟩ := h
  have hpf : pf = [(false, "h:01")] := by
    have hc : compute_proof CK0.Fixtures.byteLenHash ["h:00ff", "h:01"] 0
        = some [(false, "h:01")] := by decide
    rw [hc] at hp
    exact (Option.some_inj.mp hp).symm
  have hrt : rt = "h:03" := by
    have hc : compute_root CK0.Fixtures.byteLenHash ["h:00ff", "h:01"]
        = some "h:03" := by decide
    rw [hc] at hr
    exact (Option.some_inj.mp hr).symm
  subst hpf
  subst hrt
  exact ⟨h1 [0, 255] (by decide), hp, hr, hv⟩

end CK0.Claims

namespace CK0.Claims.Decimal

open PyStr

/-! Helper lemmas: decimal rendering round-trips through parsing. -/

theorem digitVal_digitChar (d : ℕ) (h : d < 10) :
    digitVal (digitChar d) = d :=
  (by decide : ∀ d : Fin 10, digitVal (digitChar d.val) = d.val) ⟨d, h⟩

theorem isDigit_digitChar (d : ℕ) (h : d < 10) :
    isDigitChar (digitChar d) = true :=
  (by decide : ∀ d : Fin 10, isDigitChar (digitChar d.val) = true) ⟨d, h⟩

theorem digit_ne_dash {c : Char} (h : isDigitChar c = true) : c ≠ '-' := by
  intro hc
  subst hc
  exact absurd h (by decide)

theorem digit_ne_colon {c : Char} (h : isDigitChar c = true) : c ≠ ':' := by
  intro hc
  subst hc
  exact absurd h (by decide)

theorem natDecAux_foldl : ∀ (fuel n acc : ℕ), n ≤ fuel →
    (natDecAux fuel n).foldl (fun a c => a * 10 + digitVal c) acc
      = acc * 10 ^ (natDecAux fuel n).length + n
  | 0, n, acc => fun h => by
    have hn : n = 0 := by omega
    subst hn
    simp [natDecAux]
  | fuel + 1, n, acc => fun h => by
    by_cases h0 : n = 0
    · subst h0
      simp [natDecAux]
    · have hstep : natDecAux (fuel + 1) n
          = natDecAux fuel (n / 10) ++ [digitChar (n % 10)] := by
        simp [natDecAux, h0]
      have hrec := natDecAux_foldl fuel (n / 10) acc (by omega)
      rw [hstep, List.foldl_append, hrec, List.foldl_cons, List.foldl_nil,
        digitVal_digitChar (n % 10) (by omega), List.length_append]
      simp only [List.length_cons, List.length_nil]
      rw [pow_succ]
      have h10 : n / 10 * 10 + n % 10 = n := by omega
      ring_nf
      omega

theorem natDecAux_digits : ∀ (fuel n : ℕ), n ≤ fuel →
    ∀ c ∈ natDecAux fuel n, isDigitChar c = true
  | 0, n, _ => by simp [natDecAux]
  | fuel + 1, n, h => by
    by_cases h0 : n = 0
    · subst h0
      simp [natDecAux]
    · intro c hc
      have hstep : natDecAux (fuel + 1) n
          = natDecAux fuel (n / 10) ++ [digitChar (n % 10)] := by
        simp [natDecAux, h0]
      rw [hstep, List.mem_append] at hc
      rcases hc with hc | hc
      · exact natDecAux_digits fuel (n / 10) (by omega) c hc
      · rw [List.mem_singleton] at hc
        subst hc
        exact isDigit_digitChar (n % 10) (by omega)

theorem natDecAux_ne_nil (fuel n : ℕ) (h : n ≤ fuel) (h0 : n ≠ 0) :
    natDecAux fuel n ≠ [] := by
  cases fuel with
  | zero => omega
  | succ fuel =>
    have hstep : natDecAux (fuel + 1) n
        = natDecAux fuel (n / 10) ++ [digitChar (n % 10)] := by
      simp [natDecAux, h0]
    rw [hstep]
    simp

theorem natDecimal_digits (n : ℕ) :
    ∀ c ∈ (natDecimal n).data, isDigitChar c = true := by
  unfold natDecimal
  by_cases h0 : n = 0
  · subst h0
    intro c hc
    simp at hc
    subst hc
    decide
  · rw [if_neg h0]
    exact natDecAux_digits n n (le_refl n)

theorem parseNat_natDecimal (n : ℕ) :
    parseNatDigits (natDecimal n).data = some n := by
  by_cases h0 : n = 0
  · subst h0
    decide
  · unfold natDecimal
    rw [if_neg h0]
    unfold parseNatDigits
    rw [if_pos ⟨natDecAux_ne_nil n n (le_refl n) h0,
      List.all_eq_true.mpr (fun c hc => natDecAux_digits n n (le_refl n) c hc)⟩]
    rw [natDecAux_foldl n n 0 (le_refl n)]
    simp

theorem parsePyInt_intDecimal (i : ℤ) : parsePyInt (intDecimal i) = some i := by
  unfold intDecimal
  by_cases hneg : i < 0
  · rw [if_pos hneg]
    have hdata : ("-" ++ natDecimal (-i).toNat).data
        = '-' :: (natDecimal (-i).toNat).data := by
      rw [String.data_append]
      rfl
    unfold parsePyInt
    rw [hdata]
    simp only [parsePyIntChars]
    rw [if_true, parseNat_natDecimal]
    have htn : (((-i).toNat : ℤ)) = -i := Int.toNat_of_nonneg (by omega)
    simp only [Option.map_some', Option.some_inj]
    omega
  · rw [if_neg hneg]
    have hne : (natDecimal i.toNat).data ≠ [] := by
      unfold natDecimal
      by_cases h0 : i.toNat = 0
      · rw [if_pos h0]
        decide
      · rw [if_neg h0]
        exact natDecAux_ne_nil i.toNat i.toNat (le_refl _) h0
    obtain ⟨c, cs, hdata⟩ := List.exists_cons_of_ne_nil hne
    have hcdigit : isDigitChar c = true :=
      natDecimal_digits i.toNat c (hdata ▸ List.mem_cons_self c cs)
    unfold parsePyInt
    rw [hdata]
    rw [show parsePyIntChars (c :: cs)
        = if c = '-' then (parseNatDigits cs).map (fun n : ℕ => -(n : ℤ))
          else (parseNatDigits (c :: cs)).map (fun n : ℕ => (n : ℤ)) from rfl]
    rw [if_neg (digit_ne_dash hcdigit), ← hdata, parseNat_natDecimal]
    have htn : ((i.toNat : ℤ)) = i := Int.toNat_of_nonneg (by omega)
    simp only [Option.map_some', Option.some_inj]
    omega

end CK0.Claims.Decimal

namespace CK0.Claims.Tokens

open PyStr NK1.ValueCanon CK0.Claims.Decimal

/-! Helper lemmas: token components and the base64 round trip. -/

theorem intDecimal_no_colon (i : ℤ) : ∀ c ∈ (intDecimal i).data, c ≠ ':' := by
  unfold intDecimal
  by_cases hneg : i < 0
  · rw [if_pos hneg]
    intro c hc
    rw [show ("-" ++ natDecimal (-i).toNat).data
        = '-' :: (natDecimal (-i).toNat).data from by rw [String.data_append]; rfl,
      List.mem_cons] at hc
    rcases hc with hc | hc
    · subst hc
      decide
    · exact digit_ne_colon (natDecimal_digits _ c hc)
  · rw [if_neg hneg]
    intro c hc
    exact digit_ne_colon (natDecimal_digits _ c hc)

theorem splitFirstColon_append : ∀ (l1 l2 : List Char),
    (∀ c ∈ l1, c ≠ ':') →
    splitFirstColon (l1 ++ ':' :: l2) = some (l1, l2) := by
  intro l1
  induction l1 with
  | nil =>
    intro l2 _
    simp [splitFirstColon]
  | cons c cs ih =>
    intro l2 h
    have hc : c ≠ ':' := h c (List.mem_cons_self c cs)
    simp only [List.cons_append, splitFirstColon, if_neg hc, List.append_eq,
      ih l2 (fun x hx => h x (List.mem_cons_of_mem c hx)), Option.map_some']

theorem b64Val_b64Char (n : ℕ) (h : n < 64) :
    b64ValChar (b64Char n) = some n :=
  (by decide : ∀ d : Fin 64, b64ValChar (b64Char d.val) = some d.val) ⟨n, h⟩

theorem b64_roundtrip : ∀ bs : List ℕ, (∀ b ∈ bs, b < 256) →
    b64decodeChars (b64encodeChars bs) = some bs
  | [] => fun _ => rfl
  | [a] => fun h => by
    have ha : a < 256 := h a (by simp)
    simp only [b64encodeChars, b64decodeChars,
      b64Val_b64Char (a / 4) (by omega), b64Val_b64Char (a % 4 * 16) (by omega),
      Option.bind_eq_bind, Option.some_bind, Option.some_inj]
    have : a / 4 * 4 + a % 4 * 16 / 16 = a := by omega
    rw [this]
    rfl
  | [a, b] => fun h => by
    have ha : a < 256 := h a (by simp)
    have hb : b < 256 := h b (by simp)
    simp only [b64encodeChars, b64decodeChars,
      b64Val_b64Char (a / 4) (by omega),
      b64Val_b64Char (a % 4 * 16 + b / 16) (by omega),
      b64Val_b64Char (b % 16 * 4) (by omega),
      Option.bind_eq_bind, Option.some_bind, Option.some_inj]
    have e1 : a / 4 * 4 + (a % 4 * 16 + b / 16) / 16 = a := by omega
    have e2 : (a % 4 * 16 + b / 16) % 16 * 16 + b % 16 * 4 / 4 = b := by omega
    rw [e1, e2]
    rfl
  | a :: b :: c :: rest => fun h => by
    have ha : a < 256 := h a (by simp)
    have hb : b < 256 := h b (by simp)
    have hc : c < 256 := h c (by simp)
    have hrec := b64_roundtrip rest
      (fun x hx => h x (by simp [hx]))
    simp only [b64encodeChars, b64decodeChars,
      b64Val_b64Char (a / 4) (by omega),
      b64Val_b64Char (a % 4 * 16 + b / 16) (by omega),
      b64Val_b64Char (b % 16 * 4 + c / 64) (by omega),
      b64Val_b64Char (c % 64) (by omega),
      hrec, Option.bind_eq_bind, Option.some_bind, Option.some_inj]
    have e1 : a / 4 * 4 + (a % 4 * 16 + b / 16) / 16 = a := by omega
    have e2 : (a % 4 * 16 + b / 16) % 16 * 16 + (b % 16 * 4 + c / 64) / 4 = b := by
      omega
    have e3 : (b % 16 * 4 + c / 64) % 4 * 64 + c % 64 = c := by omega
    rw [e1, e2, e3]
    simp

end CK0.Claims.Tokens

namespace CK0.Claims.Roundtrip

open PyStr NK1.ValueCanon CK0.Claims.Decimal CK0.Claims.Tokens

/-! Helper lemmas: `parse` dispatches on the canonical tag, and inverts
`canon` on the scalar shapes. -/

theorem parse_tag_i (x : String) :
    parse (.str ("i:" ++ x)) = (parsePyInt x).map (fun n => .int n) := by
  cases x
  rfl

theorem parse_tag_s (x : String) :
    parse (.str ("s:" ++ x)) = some (.str x) := by
  cases x
  rfl

theorem parse_tag_b64 (x : String) :
    parse (.str ("b64:" ++ x)) = (b64decodeChars x.data).map (fun bs => .bytes bs) := by
  cases x
  rfl

theorem parse_tag_q (x : String) :
    parse (.str ("q:" ++ x)) = (do
      let parts ← splitFirstColon x.data
      let den ← parsePyInt (String.mk parts.1)
      let num ← parsePyInt (String.mk parts.2)
      pure (.pair num den) : Option PyValue) := by
  cases x
  rfl

theorem parse_canon_scalar (nfc : String → String) :
    ∀ v : PyValue, scalarShape nfc v = true →
      parse (canonAsPy (canon nfc v)) = some v := by
  intro v hv
  cases v with
  | int n =>
    show parse (.str ("i:" ++ intDecimal n)) = some (.int n)
    rw [parse_tag_i, parsePyInt_intDecimal]
    rfl
  | str s =>
    have hfix : nfc s = s := by
      simpa [scalarShape] using hv
    show parse (.str ("s:" ++ nfc s)) = some (.str s)
    rw [hfix, parse_tag_s]
  | bytes bs =>
    have hb : ∀ b ∈ bs, b < 256 := by
      simpa [scalarShape, List.all_eq_true] using hv
    show parse (.str ("b64:" ++ String.mk (b64encodeChars bs))) = some (.bytes bs)
    rw [parse_tag_b64]
    rw [show (String.mk (b64encodeChars bs)).data = b64encodeChars bs from rfl]
    rw [b64_roundtrip bs hb]
    rfl
  | pair num den =>
    by_cases h1 : den = 1
    · subst h1
      show parse (.str (if (1 : ℤ) = 1 then "q:1:" ++ intDecimal num
        else "q:" ++ intDecimal (1 : ℤ) ++ ":" ++ intDecimal num)) = some (.pair num 1)
      rw [if_pos rfl]
      rw [show ("q:1:" ++ intDecimal num) = "q:" ++ ("1:" ++ intDecimal num) from by
        cases intDecimal num
        rfl]
      rw [parse_tag_q]
      rw [show ("1:" ++ intDecimal num).data
          = ['1'] ++ ':' :: (intDecimal num).data from by
        rw [String.data_append]
        rfl]
      rw [splitFirstColon_append ['1'] (intDecimal num).data (by decide)]
      simp only [Option.bind_eq_bind, Option.some_bind]
      rw [show parsePyInt (String.mk ['1']) = some 1 from by decide]
      rw [show String.mk (intDecimal num).data = intDecimal num from rfl,
        parsePyInt_intDecimal]
      rfl
    · show parse (.str (if den = 1 then "q:1:" ++ intDecimal num
        else "q:" ++ intDecimal den ++ ":" ++ intDecimal num)) = some (.pair num den)
      rw [if_neg h1]
      rw [show ("q:" ++ intDecimal den ++ ":" ++ intDecimal num)
          = "q:" ++ (intDecimal den ++ (":" ++ intDecimal num)) from by
        rw [String.append_assoc, String.append_assoc]]
      rw [parse_tag_q]
      rw [show (intDecimal den ++ (":" ++ intDecimal num)).data
          = (intDecimal den).data ++ ':' :: (intDecimal num).data from by
        rw [String.data_append, String.data_append]
        rfl]
      rw [splitFirstColon_append (intDecimal den).data (intDecimal num).data
        (intDecimal_no_colon den)]
      simp only [Option.bind_eq_bind, Option.some_bind]
      rw [show String.mk (intDecimal den).data = intDecimal den from rfl,
        show String.mk (intDecimal num).data = intDecimal num from rfl,
        parsePyInt_intDecimal, parsePyInt_intDecimal]
      rfl
  | none => simp [scalarShape] at hv
  | bool b => simp [scalarShape] at hv
  | list xs => simp [scalarShape] at hv
  | dict kvs => simp [scalarShape] at hv

end CK0.Claims.Roundtrip

namespace CK0.Claims.Injectivity

open PyStr NK1.ValueCanon CK0.Claims.Roundtrip

/-! Helper lemmas: `canon` is injective on the dict-free, NFC-normal
value domain. -/

theorem canon_scalar_inj (nfc : String → String) (u v : PyValue)
    (hsu : scalarShape nfc u = true) (hsv : scalarShape nfc v = true)
    (h : canon nfc u = canon nfc v) : u = v := by
  have pu := parse_canon_scalar nfc u hsu
  rw [h, parse_canon_scalar nfc v hsv] at pu
  exact (Option.some_inj.mp pu).symm

theorem canon_inj_bounded (nfc : String → String) :
    ∀ n : ℕ, ∀ u v : PyValue, sizeOf u ≤ n →
      goodValue nfc u = true → goodValue nfc v = true →
      canon nfc u = canon nfc v → u = v := by
  intro n
  induction n with
  | zero =>
    intro u v hsz _ _ _
    exfalso
    cases u <;> simp at hsz
  | succ n ih =>
    have sub : ∀ xs ys : List PyValue,
        (∀ x ∈ xs, sizeOf x ≤ n) →
        goodList nfc xs = true → goodList nfc ys = true →
        canonList nfc xs = canonList nfc ys → xs = ys := by
      intro xs
      induction xs with
      | nil =>
        intro ys _ _ _ hl
        cases ys with
        | nil => rfl
        | cons y ys' => exact absurd hl (by simp [canonList])
      | cons x xs' ihx =>
        intro ys hb hgx hgy hl
        cases ys with
        | nil => exact absurd hl (by simp [canonList])
        | cons y ys' =>
          simp only [canonList] at hl
          obtain ⟨h1, h2⟩ := List.cons.inj hl
          have hgx' : goodValue nfc x = true ∧ goodList nfc xs' = true := by
            simpa [goodList, Bool.and_eq_true] using hgx
          have hgy' : goodValue nfc y = true ∧ goodList nfc ys' = true := by
            simpa [goodList, Bool.and_eq_true] using hgy
          have hx := ih x y (hb x (by simp)) hgx'.1 hgy'.1 h1
          have hrest := ihx ys' (fun z hz => hb z (by simp [hz]))
            hgx'.2 hgy'.2 h2
          rw [hx, hrest]
    intro u v hsz hu hv h
    cases u <;> cases v <;>
      first
        | rfl
        | (exact Bool.noConfusion hu)
        | (exact Bool.noConfusion hv)
        | (exact CanonValue.noConfusion h)
        | (exact congrArg PyValue.bool (CanonValue.cboolTag.inj h))
        | (exact canon_scalar_inj nfc _ _ hu hv h)
        | (rename_i xs ys
           refine congrArg PyValue.list (sub xs ys ?_ hu hv (CanonValue.clist.inj h))
           intro x hx
           have h1 : sizeOf x < sizeOf xs := List.sizeOf_lt_of_mem hx
           have h2 : sizeOf (PyValue.list xs) = 1 + sizeOf xs := by simp
           omega)

end CK0.Claims.Injectivity

namespace CK0.Claims

open NK1.ValueCanon CK0.Claims.Roundtrip CK0.Claims.Injectivity

/-- C5 (amended): `parse` is the exact inverse of `canon` on the
string-tagged scalar shapes — integers, NFC-normal text (text fixed by
the normalizer), byte strings, and rational numerator/denominator
pairs — for every normalizer; for booleans, lists and maps `parse`
returns the canonical token unchanged (it only ever inverts tagged
strings), so the round trip does not recover those values. -/
theorem value_canon_parse_inverse (nfc : String → String) :
    (∀ v : PyValue, scalarShape nfc v = true →
      parse (canonAsPy (canon nfc v)) = some v) ∧
    (∀ b : Bool, parse (canonAsPy (canon nfc (.bool b)))
      = some (canonAsPy (canon nfc (.bool b)))) ∧
    (∀ xs : List PyValue, parse (canonAsPy (canon nfc (.list xs)))
      = some (canonAsPy (canon nfc (.list xs)))) ∧
    (∀ kvs : List (String × PyValue), parse (canonAsPy (canon nfc (.dict kvs)))
      = some (canonAsPy (canon nfc (.dict kvs)))) := by
  refine ⟨parse_canon_scalar nfc, ?_, ?_, ?_⟩
  · intro b
    rfl
  · intro xs
    rfl
  · intro kvs
    rfl

/-- C5 witness: concrete round trips for a byte string, a negative
integer, a rational pair and an ASCII string (NFC is the identity on
ASCII). -/
theorem value_canon_parse_inverse_witness :
    parse (canonAsPy (canon (fun s => s) (.bytes [0, 255])))
      = some (.bytes [0, 255]) ∧
    parse (canonAsPy (canon (fun s => s) (.int (-7)))) = some (.int (-7)) ∧
    parse (canonAsPy (canon (fun s => s) (.pair 5 1000)))
      = some (.pair 5 1000) ∧
    parse (canonAsPy (canon (fun s => s) (.str "abc"))) = some (.str "abc") := by
  have h := (value_canon_parse_inverse (fun s => s)).1
  exact ⟨h _ (by decide), h _ (by decide), h _ (by decide), h _ (by decide)⟩

/-- C5 counterexample: `parse(canon(True))` is the bool-tag dict
`{"t": "bool", "v": True}` returned unchanged, not the boolean `True` —
the claimed inverse fails on the boolean shape. -/
theorem value_canon_bool_not_inverted :
    parse (canonAsPy (canon (fun s => s) (.bool true)))
      = some (.dict [("t", .str "bool"), ("v", .bool true)]) ∧
    PyValue.dict [("t", .str "bool"), ("v", .bool true)] ≠ .bool true :=
  ⟨rfl, fun h => PyValue.noConfusion h⟩

/-- C6 (amended): `canon` is injective on the dict-free supported
values whose text components are NFC-normal and whose byte values are
bytes — including across types — but a map collides with the list of
its key/value pairs, so injectivity cannot include maps. -/
theorem value_canon_injective_dict_free (nfc : String → String)
    (u v : PyValue) (hu : goodValue nfc u = true)
    (hv : goodValue nfc v = true) (h : canon nfc u = canon nfc v) : u = v :=
  canon_inj_bounded nfc (sizeOf u) u v (le_refl _) hu hv h

/-- C6 witness: the injectivity theorem applied at a concrete
dict-free value. -/
theorem value_canon_injective_dict_free_witness :
    PyValue.list [.int 1, .str "a"] = PyValue.list [.int 1, .str "a"] :=
  value_canon_injective_dict_free (fun s => s) _ _ (by decide) (by decide) rfl

/-- C6 counterexample: the map `{"a": 1}` and the list `[["a", 1]]` are
distinct values with identical canonical forms — `canon` encodes a map
as exactly the sorted list of its `[canon(key), canon(value)]` pairs. -/
theorem value_canon_map_list_collision :
    canon (fun s => s) (.dict [("a", .int 1)])
      = canon (fun s => s) (.list [.list [.str "a", .int 1]]) ∧
    PyValue.dict [("a", .int 1)] ≠ .list [.list [.str "a", .int 1]] :=
  ⟨rfl, fun h => PyValue.noConfusion h⟩

end CK0.Claims
